import Mathlib

/-!
# card-game server: a shallow embedding of `server/main.go`

The server has three handlers over a Redis store: `storeUsernameHandler`
(POST /store-username), `getAllUsernamesHandler` (GET /get-all-usernames) and the
closure that serves `generateRandomCards` (GET /get-random-cards).

Modelling decisions.

* Go strings are Lean `String`s; where the Go code ranges over bytes the model
  ranges over characters (a character outside ASCII is a run of bytes that are
  all at least 0x80, none of which is a sign or a digit) and `len` is
  `String.utf8ByteSize`.
* Go `int` is the 64-bit two's complement integer of the usual server targets:
  values are `Int`s, wrapped explicitly by `wrapInt` where the Go code can
  overflow.
* The Redis store is an explicit state, an association list from keys to typed
  values in the order in which the store lists them.  A call of the client that
  fails (connection errors and the like) is an outcome chosen by a `Faults`
  oracle; a write that fails leaves the state as it was.
* The clock and the random source are inputs: a `Clock` gives the readings of
  the two `time.Now()` calls of `storeUsernameHandler`, and the random source
  is the sequence of raw values it hands to `rand.Intn`.
* The request body is taken as the decoder of `encoding/json` meets it.
  `Decoder.Decode` reads one JSON value from the front of the text and leaves
  what follows that value unread: the body is text the decoder rejects
  (`RequestBody.rejected`), a JSON value (`RequestBody.value`), or a JSON value
  followed by further text (`RequestBody.valueThenText`).
* Log lines (`fmt.Printf`) are not part of the model.
-/

namespace CardGame

/-! ## Machine integers -/

/-- The size in bits of a Go `int` (`strconv.IntSize`). -/
def intSize : Nat := 64

/-- Two's complement wrap-around of a mathematical integer to a `bits`-bit signed
integer: what Go's `+` on `int` yields for the exact sum. -/
def wrapInt (bits : Nat) (x : Int) : Int :=
  (x + 2 ^ (bits - 1)) % 2 ^ bits - 2 ^ (bits - 1)

/-- Wrap-around of a natural number to a `bits`-bit unsigned integer. -/
def wrapUint (bits : Nat) (x : Nat) : Nat :=
  x % 2 ^ bits

/-! ## strconv -/

/-- The decimal digit `d` (0 to 9) as a character. -/
def digitChar (d : Nat) : Char :=
  Char.ofNat (48 + d)

/-- Decimal digits of `n`, most significant first; `fuel` bounds the number of
digits produced and `n + 1` always suffices. -/
def decimalDigits : Nat → Nat → List Char
  | 0, _ => []
  | fuel + 1, n =>
    if n < 10 then [digitChar n] else decimalDigits fuel (n / 10) ++ [digitChar (n % 10)]

/-- Decimal rendering of a natural number. -/
def formatNat (n : Nat) : List Char :=
  decimalDigits (n + 1) n

/-- The call `strconv.FormatInt(i, 10)`: a minus sign for a negative number, then the
decimal digits of its magnitude. -/
def FormatInt (i : Int) : String :=
  if i < 0 then String.mk ('-' :: formatNat i.natAbs) else String.mk (formatNat i.natAbs)

/-- The two errors a `strconv` conversion reports (`ErrSyntax`, `ErrRange`). -/
inductive NumError where
  | syntaxError
  | rangeError
  deriving DecidableEq, Repr

/-- The digit loop of `strconv.ParseUint(s, 10, 0)` started with accumulator `n`.
Each byte is classified first: one that is not a decimal digit ends the loop
with a syntax error and value 0 (letters are digits of a base above 10, which
`d >= base` rejects; the underscore is a separator for base 0 only).  Then the
overflow tests run: an accumulator that cannot take the digit ends the loop
with a range error and the largest value, whatever bytes follow. -/
def parseUintLoop : List Char → Nat → Nat × Option NumError
  | [], n => (n, none)
  | c :: cs, n =>
    if 48 ≤ c.toNat ∧ c.toNat ≤ 57 then
      let d := c.toNat - 48
      let cutoff := (2 ^ 64 - 1) / 10 + 1
      let maxVal := 2 ^ intSize - 1
      if n ≥ cutoff then (maxVal, some NumError.rangeError)
      else
        let n10 := wrapUint 64 (n * 10)
        let n1 := wrapUint 64 (n10 + d)
        if n1 < n10 ∨ n1 > maxVal then (maxVal, some NumError.rangeError)
        else parseUintLoop cs n1
    else (0, some NumError.syntaxError)

/-- The call `strconv.ParseUint(s, 10, 0)` on the bytes of `s`. -/
def ParseUint (s : List Char) : Nat × Option NumError :=
  if s = [] then (0, some NumError.syntaxError) else parseUintLoop s 0

/-- The call `strconv.ParseInt(s, 10, 0)`: picks off a leading sign, converts the rest
unsigned, and clamps a value outside the `int` range to the nearest bound,
reporting a range error. -/
def ParseInt (s : List Char) : Int × Option NumError :=
  match s with
  | [] => (0, some NumError.syntaxError)
  | c :: cs =>
    let neg := decide (c = '-')
    let rest := if c = '+' ∨ c = '-' then cs else c :: cs
    match ParseUint rest with
    | (_, some NumError.syntaxError) => (0, some NumError.syntaxError)
    | (un, _) =>
      let cutoff : Nat := 2 ^ (intSize - 1)
      if ¬ neg ∧ un ≥ cutoff then ((cutoff : Int) - 1, some NumError.rangeError)
      else if neg ∧ un > cutoff then (-(cutoff : Int), some NumError.rangeError)
      else (if neg then -(un : Int) else (un : Int), none)

/-- The digit loop of the fast path of `strconv.Atoi`; `none` is the syntax error. -/
def atoiFastLoop : List Char → Int → Option Int
  | [], n => some n
  | c :: cs, n =>
    if 48 ≤ c.toNat ∧ c.toNat ≤ 57 then atoiFastLoop cs (n * 10 + ((c.toNat - 48 : Nat) : Int))
    else none

/-- The function `strconv.Atoi`: the value and the error.  Strings of 1 to 18 bytes
take the fast path, every other string goes through `ParseInt(s, 10, 0)`, whose
value is returned together with its error. -/
def Atoi (s : String) : Int × Option NumError :=
  let sLen := s.utf8ByteSize
  if 0 < sLen ∧ sLen < 19 then
    match s.data with
    | [] => (0, some NumError.syntaxError)
    | c :: cs =>
      let signed := decide (c = '-' ∨ c = '+')
      let rest := if signed then cs else c :: cs
      if signed ∧ rest.length < 1 then (0, some NumError.syntaxError)
      else
        match atoiFastLoop rest 0 with
        | none => (0, some NumError.syntaxError)
        | some n => (if c = '-' then -n else n, none)
  else
    let r := ParseInt s.data
    (wrapInt intSize r.1, r.2)

/-! ## time -/

/-- The function `appendInt` of package `time`: a minus sign for a negative number,
then the decimal digits of the magnitude, padded with zeros on the left up to
`width` digits. -/
def appendInt (x : Int) (width : Nat) : List Char :=
  let digits := formatNat x.natAbs
  (if x < 0 then ['-'] else []) ++ List.replicate (width - digits.length) '0' ++ digits

/-- The table `daysBefore` of package `time`: the number of days in a non-leap year
before the month with index `m` (January has index 0). -/
def daysBefore : List Int :=
  [0, 31, 59, 90, 120, 151, 181, 212, 243, 273, 304, 334, 365]

/-- The leap years of the Gregorian calendar (`isLeap` of package `time`). -/
def isLeap (year : Int) : Bool :=
  year % 4 = 0 ∧ (year % 100 ≠ 0 ∨ year % 400 = 0)

/-- Year and day within the year (from 0) of the day that lies `days` days after
1 January of year 1, by the cycle cutting of `absDate` in package `time`:
400-year cycles, then 100-year, 4-year and 1-year cycles, the last 100-year and
1-year cycle of a group being one day longer. -/
def absYear (days : Int) : Int × Int :=
  let d := days
  let n := d / 146097
  let y := 400 * n
  let d := d - 146097 * n
  let n := d / 36524
  let n := n - n / 4
  let y := y + 100 * n
  let d := d - 36524 * n
  let n := d / 1461
  let y := y + 4 * n
  let d := d - 1461 * n
  let n := d / 365
  let n := n - n / 4
  let y := y + n
  let d := d - 365 * n
  (y + 1, d)

/-- Month (1 to 12) and day of the month of day `day` (from 0) of a non-leap year, as
`absDate` finds them: the month is estimated as if every month had 31 days, an
estimate that is too low by at most one, and corrected with `daysBefore`. -/
def monthOfDay (day : Int) : Int × Int :=
  let month := day / 31
  let e := daysBefore.getD (month + 1).toNat 0
  if day ≥ e then (month + 2, day - e + 1)
  else (month + 1, day - daysBefore.getD month.toNat 0 + 1)

/-- Month and day of the month of day `yday` (from 0) of `year`: the second half of `absDate`.
In a leap year day 59 is 29 February and the days after it are taken as those
of a non-leap year. -/
def monthDay (year yday : Int) : Int × Int :=
  if isLeap year ∧ yday = 31 + 29 - 1 then (2, 29)
  else monthOfDay (if isLeap year ∧ yday > 31 + 29 - 1 then yday - 1 else yday)

/-- Civil date (year, month, day) of the day that lies `days` days after 1 January of
year 1. -/
def absDate (days : Int) : Int × Int × Int :=
  let yd := absYear days
  let md := monthDay yd.1 yd.2
  (yd.1, md.1, md.2)

/-- The zone designator that layout element `Z07:00` prints for a zone `offset` seconds
east of UTC: `Z` for offset 0, otherwise a sign, hours and minutes; the offset
is cut to whole minutes by Go's truncating division. -/
def zoneSuffix (offset : Int) : List Char :=
  if offset = 0 then ['Z']
  else
    let zone := Int.tdiv offset 60
    (if zone < 0 then ['-'] else ['+']) ++ appendInt ((zone.natAbs / 60 : Nat) : Int) 2 ++ [':'] ++
      appendInt ((zone.natAbs % 60 : Nat) : Int) 2

/-- The call `t.Format(time.RFC3339)`, layout `2006-01-02T15:04:05Z07:00`, for the
instant `unixNano` nanoseconds after the Unix epoch shown in a zone `offset`
seconds east of UTC.  The layout has no fractional seconds: only the whole
second of the instant is printed.  Day 0 of the Unix epoch is day 719162 after
1 January of year 1. -/
def formatRFC3339 (unixNano offset : Int) : String :=
  let sec := unixNano / 1000000000
  let loc := sec + offset
  let date := absDate (loc / 86400 + 719162)
  let r := loc % 86400
  String.mk (appendInt date.1 4 ++ ['-'] ++ appendInt date.2.1 2 ++ ['-'] ++ appendInt date.2.2 2
    ++ ['T'] ++ appendInt (r / 3600) 2 ++ [':'] ++ appendInt (r % 3600 / 60) 2 ++ [':']
    ++ appendInt (r % 60) 2 ++ zoneSuffix offset)

/-- The readings of the clock during one call of `storeUsernameHandler`: the value of
`time.Now().UnixNano()` that becomes the id, the instant of the second
`time.Now()` (in nanoseconds after the Unix epoch) that becomes `created`, and
the offset in seconds of the local zone in which that instant is formatted. -/
structure Clock where
  idNano : Int
  createdNano : Int
  zoneOffset : Int
  deriving DecidableEq, Repr

/-! ## The deck -/

/-- The character names of the deck. -/
def CHARACTERS : List String :=
  ["cat", "defuse", "shuffle", "exploding"]

/-- The value `rand.Intn(n)` returns when the random source hands out the raw value
`raw`: a number in the half-open interval from 0 to `n` (for `n` a power of
two, as here, the low bits of `raw`). -/
def Intn (raw n : Nat) : Nat :=
  raw % n

/-- The loop `for i := 0; i < 5; i++` of `generateRandomCards`, entered with `5 - i` rounds
left to run; `src i` is the raw value of the random source at draw `i`.  Indexing
`CHARACTERS` out of range is a run-time panic, the result `none`. -/
def generateLoop (src : Nat → Nat) : Nat → Nat → List String → Option (List String)
  | 0, _, randomDeck => some randomDeck
  | rounds + 1, i, randomDeck =>
    let index := Intn (src i) CHARACTERS.length
    match CHARACTERS.get? index with
    | none => none
    | some name => generateLoop src rounds (i + 1) (randomDeck ++ [name])

/-- The function `generateRandomCards`, for the outcome `src` of the freshly seeded
random source. -/
def generateRandomCards (src : Nat → Nat) : Option (List String) :=
  generateLoop src 5 0 []

/-! ## Request bodies and their binding -/

/-- A JSON value. -/
inductive Json where
  | null
  | bool (b : Bool)
  | number (n : Int)
  | str (s : String)
  | arr (items : List Json)
  | obj (members : List (String × Json))

/-- The body of a request as the decoder of `encoding/json` meets it.  `Decoder.Decode` reads
one JSON value from the front of the text and does not look at what follows it.
* `rejected msg`: the text does not begin with a complete JSON value; the decoder
  reports `msg`.
* `value v`: the text is the JSON value `v`, with at most white space around it.
* `valueThenText v rest`: the text begins with the JSON value `v`, which the decoder
  reads, and goes on with the text `rest`, which it leaves unread. -/
inductive RequestBody where
  | rejected (msg : String)
  | value (v : Json)
  | valueThenText (v : Json) (rest : String)

/-- Whether an object key names the field tagged `json:"player"`: `encoding/json`
prefers an exact match and also accepts a match that ignores letter case.  None
of the letters of the tag has a non-ASCII case variant. -/
def matchesPlayerTag (key : String) : Bool :=
  key = "player" ∨ key.data.map Char.toUpper = "PLAYER".data

/-- The name of a JSON value's kind in the message of an `UnmarshalTypeError`. -/
def Json.kind : Json → String
  | Json.null => "null"
  | Json.bool _ => "bool"
  | Json.number _ => "number"
  | Json.str _ => "string"
  | Json.arr _ => "array"
  | Json.obj _ => "object"

/-- Decoding the members of an object into `struct { Player string }`, from the current
value of `Player` and the first type error saved so far: a string sets the
field, `null` leaves it, any other value is a type error and decoding goes on;
keys that do not name the field are skipped. -/
def decodeMembers : List (String × Json) → String → Option String → String × Option String
  | [], player, err => (player, err)
  | (key, v) :: rest, player, err =>
    if matchesPlayerTag key then
      match v with
      | Json.str s => decodeMembers rest s err
      | Json.null => decodeMembers rest player err
      | other =>
        decodeMembers rest player
          (match err with
            | some e => some e
            | none => some ("json: cannot unmarshal " ++ other.kind ++
                " into Go struct field .player of type string"))
    else decodeMembers rest player err

/-- Binding a decoded JSON value to `struct { Player string }`: the value is stored into the
struct and the struct is then validated against the tag `binding:"required"`,
which rejects the empty string.  The result is the bound `Player`, or the text
of the error. -/
def bindValue (v : Json) : Except String String :=
  match v with
  | Json.null =>
    Except.error "Key: 'Player' Error:Field validation for 'Player' failed on the 'required' tag"
  | Json.obj members =>
    match decodeMembers members "" none with
    | (_, some e) => Except.error e
    | (player, none) =>
      if player = "" then
        Except.error "Key: 'Player' Error:Field validation for 'Player' failed on the 'required' tag"
      else Except.ok player
  | other =>
    Except.error ("json: cannot unmarshal " ++ other.kind ++ " into Go value of type struct")

/-- The call `c.ShouldBindJSON(&requestBody)`: one `Decode` of the body into the request
struct, then the validation.  Text after the decoded value plays no part. -/
def ShouldBindJSON (body : RequestBody) : Except String String :=
  match body with
  | RequestBody.rejected msg => Except.error msg
  | RequestBody.value v => bindValue v
  | RequestBody.valueThenText v _ => bindValue v

/-! ## The Redis store and its client -/

/-- A value held under a key of the store. -/
inductive RedisValue where
  | string (v : String)
  | list (items : List String)
  | set (members : List String)
  | zset (members : List (String × Int))
  | hash (fields : List (String × String))
  deriving DecidableEq, Repr

/-- The answer of the `TYPE` command for a value. -/
def RedisValue.typeName : RedisValue → String
  | RedisValue.string _ => "string"
  | RedisValue.list _ => "list"
  | RedisValue.set _ => "set"
  | RedisValue.zset _ => "zset"
  | RedisValue.hash _ => "hash"

/-- The state of the store: its keys with their values, in listing order. -/
abbrev Store := List (String × RedisValue)

/-- Which calls of the client fail in the course of one request. -/
structure Faults where
  hmsetFails : Bool
  keysFails : Bool
  typeFails : String → Bool
  hgetallFails : String → Bool

/-- The value under `key`, if the store holds the key. -/
def Store.find (σ : Store) (key : String) : Option RedisValue :=
  match σ with
  | [] => none
  | (k, v) :: rest => if k = key then some v else Store.find rest key

/-- The store with the value under an existing `key` replaced. -/
def Store.replace (σ : Store) (key : String) (v : RedisValue) : Store :=
  match σ with
  | [] => []
  | (k, w) :: rest => if k = key then (k, v) :: rest else (k, w) :: Store.replace rest key v

/-- Indexing a Go `map[string]string`: the value of the field, or the empty string when
the map has no such field. -/
def mapIndex (m : List (String × String)) (field : String) : String :=
  match m with
  | [] => ""
  | (f, v) :: rest => if f = field then v else mapIndex rest field

/-- Setting one field of a hash: an existing field gets the new value, a new field is
added. -/
def hashSet (fields : List (String × String)) (field value : String) : List (String × String) :=
  match fields with
  | [] => [(field, value)]
  | (f, v) :: rest => if f = field then (f, value) :: rest else (f, v) :: hashSet rest field value

/-- Setting several fields of a hash, one after the other. -/
def hashSetAll (fields : List (String × String)) (updates : List (String × String)) :
    List (String × String) :=
  updates.foldl (fun acc u => hashSet acc u.1 u.2) fields

/-- Whether `key` matches a glob pattern made of the literal text `lit` followed by `*`. -/
def matchesGlob (lit key : String) : Bool :=
  lit.data.isPrefixOf key.data

/-- The call `client.Keys(ctx, lit*)`: the keys of the store that match, in listing
order, or `none` when the call fails. -/
def clientKeys (f : Faults) (σ : Store) (lit : String) : Option (List String) :=
  if f.keysFails then none else some ((σ.map Prod.fst).filter (matchesGlob lit))

/-- The call `client.Type(ctx, key)`. -/
def clientType (f : Faults) (σ : Store) (key : String) : Option String :=
  if f.typeFails key then none
  else
    match σ.find key with
    | some v => some v.typeName
    | none => some "none"

/-- The call `client.HGetAll(ctx, key)`: the fields of the hash under `key` (no fields for
a key the store does not hold); a value of another type is an error. -/
def clientHGetAll (f : Faults) (σ : Store) (key : String) : Option (List (String × String)) :=
  if f.hgetallFails key then none
  else
    match σ.find key with
    | some (RedisValue.hash fields) => some fields
    | some _ => none
    | none => some []

/-- The call `client.HMSet(ctx, key, fields)`: the store after the write, or `none` when
the call fails.  The fields are set in the hash under `key`, which is created
at the end of the listing when the store does not hold the key; a key that
holds a value of another type makes the store refuse the write. -/
def clientHMSet (f : Faults) (σ : Store) (key : String) (fields : List (String × String)) :
    Option Store :=
  if f.hmsetFails then none
  else
    match σ.find key with
    | none => some (σ ++ [(key, RedisValue.hash (hashSetAll [] fields))])
    | some (RedisValue.hash old) => some (σ.replace key (RedisValue.hash (hashSetAll old fields)))
    | some _ => none

/-! ## The handlers -/

/-- The struct `PlayerData`. -/
structure PlayerData where
  ID : String
  Player : String
  Wins : Int
  Losses : Int
  Total : Int
  Created : String
  deriving DecidableEq, Repr

/-- The JSON document a handler answers with, by its single top-level key. -/
inductive Body where
  | text (s : String)
  | error (msg : String)
  | message (msg : String)
  | players (userStats : List PlayerData)
  | cards (randomCards : List String)
  deriving DecidableEq, Repr

/-- The response of a handler. -/
structure Response where
  status : Nat
  body : Body
  deriving DecidableEq, Repr

/-- The status `http.StatusOK`. -/
def StatusOK : Nat := 200

/-- The status `http.StatusBadRequest`. -/
def StatusBadRequest : Nat := 400

/-- The status `http.StatusInternalServerError`. -/
def StatusInternalServerError : Nat := 500

/-- The key under which `storeUsernameHandler` stores the record with the given id. -/
def playerKey (id : String) : String :=
  "player:" ++ id

/-- The fields `storeUsernameHandler` writes, the integers rendered as Redis renders them. -/
def newPlayerFields (id player created : String) : List (String × String) :=
  [("id", id), ("player", player), ("wins", FormatInt 0), ("losses", FormatInt 0),
    ("total", FormatInt 0), ("created", created)]

/-- The handler `storeUsernameHandler`: the response and the store after the call. -/
def storeUsernameHandler (f : Faults) (clk : Clock) (σ : Store) (body : RequestBody) :
    Response × Store :=
  match ShouldBindJSON body with
  | Except.error e => (⟨StatusBadRequest, Body.error e⟩, σ)
  | Except.ok player =>
    let id := FormatInt clk.idNano
    match clientHMSet f σ (playerKey id)
        (newPlayerFields id player (formatRFC3339 clk.createdNano clk.zoneOffset)) with
    | none => (⟨StatusInternalServerError, Body.error "Failed to store player in Redis"⟩, σ)
    | some σ' => (⟨StatusOK, Body.message "player stored successfully"⟩, σ')

/-- The conversion of the fields of a hash to a `PlayerData`: the counters are what
`strconv.Atoi` returns, its error dropped, and the total is their sum in `int`
arithmetic. -/
def toPlayerData (userDetails : List (String × String)) : PlayerData :=
  let wins := (Atoi (mapIndex userDetails "wins")).1
  let losses := (Atoi (mapIndex userDetails "losses")).1
  { ID := mapIndex userDetails "id"
    Player := mapIndex userDetails "player"
    Wins := wins
    Losses := losses
    Total := wrapInt intSize (wins + losses)
    Created := mapIndex userDetails "created" }

/-- The loop `for _, key := range userKeys` of `getAllUsernamesHandler`, over the keys still
to visit and the slice `userStats` built so far; each `continue` of the source is
a recursive call that leaves `userStats` as it is. -/
def getAllLoop (f : Faults) (σ : Store) : List String → List PlayerData → List PlayerData
  | [], userStats => userStats
  | key :: rest, userStats =>
    match clientType f σ key with
    | none => getAllLoop f σ rest userStats
    | some keyType =>
      if keyType ≠ "hash" then getAllLoop f σ rest userStats
      else
        match clientHGetAll f σ key with
        | none => getAllLoop f σ rest userStats
        | some userDetails => getAllLoop f σ rest (userStats ++ [toPlayerData userDetails])

/-- The handler `getAllUsernamesHandler`; it only reads the store. -/
def getAllUsernamesHandler (f : Faults) (σ : Store) : Response :=
  match clientKeys f σ "player:" with
  | none => ⟨StatusInternalServerError, Body.error "Failed to retrieve players from Redis"⟩
  | some userKeys => ⟨StatusOK, Body.players (getAllLoop f σ userKeys [])⟩

/-- A request to one of the routes of the router. -/
inductive Request where
  | root
  | storeUsername (body : RequestBody)
  | getAllUsernames
  | getRandomCards

/-- What one request meets: the failures of the store client, the clock and the outcome of
the random source. -/
structure Env where
  faults : Faults
  clock : Clock
  random : Nat → Nat

/-- The router: the response to a request and the store after it.  A panic in
`generateRandomCards` is recovered by the router as status 500. -/
def serve (env : Env) (σ : Store) : Request → Response × Store
  | Request.root => (⟨StatusOK, Body.text "Hello, this is a Gin backend server with CORS support!"⟩, σ)
  | Request.storeUsername body => storeUsernameHandler env.faults env.clock σ body
  | Request.getAllUsernames => (getAllUsernamesHandler env.faults σ, σ)
  | Request.getRandomCards =>
    match generateRandomCards env.random with
    | some randomCards => (⟨StatusOK, Body.cards randomCards⟩, σ)
    | none => (⟨StatusInternalServerError, Body.text ""⟩, σ)

/-- A store client none of whose calls fails. -/
def noFaults : Faults :=
  { hmsetFails := false, keysFails := false, typeFails := fun _ => false,
    hgetallFails := fun _ => false }


/-! ## Reference definitions for the statements -/

/-- The record that a listed key contributes to the players list, in the words of the
specification: one record when the type lookup succeeds with type `hash` and the
field fetch succeeds, nothing otherwise. -/
def listedRecord (f : Faults) (σ : Store) (key : String) : Option PlayerData :=
  if clientType f σ key = some "hash" then (clientHGetAll f σ key).map toPlayerData else none

/-- Whether a byte is a decimal digit. -/
def isDigit (c : Char) : Bool :=
  decide (48 ≤ c.toNat ∧ c.toNat ≤ 57)

/-- The text of a string after its optional leading sign. -/
def unsignedPart (s : String) : List Char :=
  match s.data with
  | [] => []
  | c :: cs => if c = '+' ∨ c = '-' then cs else c :: cs

/-- Whether a string is a decimal integer numeral, that is, whether it can be parsed as
an integer: an optional sign followed by one or more decimal digits. -/
def isDecimalInteger (s : String) : Bool :=
  !(unsignedPart s).isEmpty && (unsignedPart s).all isDigit

/-- The number written by the longest run of decimal digits at the front of a text,
continuing from the value `n` of the digits already read. -/
def leadingDigitsValue : List Char → Nat → Nat
  | [], n => n
  | c :: cs, n =>
    if 48 ≤ c.toNat ∧ c.toNat ≤ 57 then leadingDigitsValue cs (n * 10 + (c.toNat - 48)) else n

/-- Whether a JSON value is a non-empty string. -/
def Json.isNonEmptyStr : Json → Bool
  | Json.str s => decide (s ≠ "")
  | _ => false

/-- A JSON value that carries no player: a value that is not an object, or an object none
of whose members named `player`, letter case ignored, holds a non-empty string. -/
def Json.lacksPlayer : Json → Bool
  | Json.obj members => members.all (fun kv => !(matchesPlayerTag kv.1 && kv.2.isNonEmptyStr))
  | _ => true

/-- A request body that carries no player: text from which the decoder cannot read a
leading JSON value, or a leading JSON value that carries no player, whatever
text follows it. -/
def lacksPlayer : RequestBody → Bool
  | RequestBody.rejected _ => true
  | RequestBody.value v => v.lacksPlayer
  | RequestBody.valueThenText v _ => v.lacksPlayer

/-- Whether a byte is JSON white space: space, tab, line feed or carriage return. -/
def isJsonSpace (c : Char) : Bool :=
  decide (c.toNat = 32 ∨ c.toNat = 9 ∨ c.toNat = 10 ∨ c.toNat = 13)

/-- Whether a request body, taken as a whole, is malformed JSON: text that does not begin
with a JSON value, or a JSON value followed by text other than white space. -/
def malformedJSON : RequestBody → Bool
  | RequestBody.rejected _ => true
  | RequestBody.value _ => false
  | RequestBody.valueThenText _ rest => rest.data.any (fun c => !isJsonSpace c)

/-- The number written by a text of decimal digits, continuing from `n`. -/
def digitsValue (cs : List Char) (n : Nat) : Nat :=
  cs.foldl (fun acc c => acc * 10 + (c.toNat - 48)) n

/-- The `width` low decimal digits of `n`, most significant first. -/
def fixedDigits : Nat → Nat → List Char
  | 0, _ => []
  | width + 1, n => fixedDigits width (n / 10) ++ [digitChar (n % 10)]

/-- The number written by a non-empty text of decimal digits. -/
def parseDigits (cs : List Char) : Option Nat :=
  if cs ≠ [] ∧ cs.all isDigit = true then some (digitsValue cs 0) else none

/-- The number of days from 1 January of year 1 to a date of the Gregorian calendar. -/
def daysSinceYearOne (year month day : Int) : Int :=
  let y := year - 1
  365 * y + y / 4 - y / 100 + y / 400 + daysBefore.getD (month - 1).toNat 0
    + (if isLeap year ∧ month > 2 then 1 else 0) + (day - 1)

/-- The offset from UTC, in seconds, that an RFC 3339 zone designator denotes: `Z`, or a sign
followed by hours, a colon and minutes. -/
def zoneOffsetOf : List Char → Option Int
  | [z] => if z = 'Z' then some 0 else none
  | [sign, h1, h2, colon, m1, m2] =>
    if (sign = '+' ∨ sign = '-') ∧ colon = ':' then
      match parseDigits [h1, h2], parseDigits [m1, m2] with
      | some h, some m => some ((if sign = '-' then -1 else 1) * ((h : Int) * 3600 + (m : Int) * 60))
      | _, _ => none
    else none
  | _ => none

/-- The instant, in seconds after the Unix epoch, that an RFC 3339 timestamp without
fractional seconds denotes: the civil date and time of day it spells, taken back
by the offset of its zone designator. -/
def rfc3339Instant (s : String) : Option Int :=
  match s.data with
  | y1 :: y2 :: y3 :: y4 :: dash1 :: mo1 :: mo2 :: dash2 :: d1 :: d2 :: tee :: h1 :: h2 ::
      colon1 :: mi1 :: mi2 :: colon2 :: s1 :: s2 :: zone =>
    if dash1 = '-' ∧ dash2 = '-' ∧ tee = 'T' ∧ colon1 = ':' ∧ colon2 = ':' then
      match parseDigits [y1, y2, y3, y4], parseDigits [mo1, mo2], parseDigits [d1, d2],
        parseDigits [h1, h2], parseDigits [mi1, mi2], parseDigits [s1, s2], zoneOffsetOf zone with
      | some year, some month, some day, some hour, some minute, some second, some offset =>
        some ((daysSinceYearOne year month day - 719162) * 86400 + (hour : Int) * 3600
          + (minute : Int) * 60 + (second : Int) - offset)
      | _, _, _, _, _, _, _ => none
    else none
  | _ => none

/-! ## The deck: proofs -/

theorem CHARACTERS_length : CHARACTERS.length = 4 := rfl

theorem CHARACTERS_get_lt (k : Nat) (h : k < 4) :
    ∃ name, CHARACTERS.get? k = some name ∧ name ∈ CHARACTERS := by
  interval_cases k <;> simp [CHARACTERS]

/-- The loop appends one name of `CHARACTERS` per round, the one at the drawn index. -/
theorem generateLoop_eq (src : Nat → Nat) (rounds i : Nat) (acc : List String) :
    generateLoop src rounds i acc =
      some (acc ++ (List.range rounds).map
        (fun j => (CHARACTERS.get? (Intn (src (i + j)) 4)).getD "")) := by
  induction rounds generalizing i acc with
  | zero => simp [generateLoop]
  | succ n ih =>
    have hlt : Intn (src i) 4 < 4 := Nat.mod_lt _ (by norm_num)
    obtain ⟨name, hname, -⟩ := CHARACTERS_get_lt _ hlt
    simp only [generateLoop, CHARACTERS_length, hname]
    rw [ih, List.range_succ_eq_map]
    simp only [List.get?_eq_getElem?] at hname
    simp [hname, Nat.add_assoc, Nat.add_comm 1, Function.comp_def]

/-- C1: for every outcome of the random source, `generateRandomCards` returns a deck (no
index into `CHARACTERS` is out of range), the deck has exactly 5 elements, and each
element is one of the names cat, defuse, shuffle, exploding. -/
theorem generateRandomCards_five_known_names (src : Nat → Nat) :
    ∃ deck, generateRandomCards src = some deck ∧ deck.length = 5 ∧
      ∀ c ∈ deck, c = "cat" ∨ c = "defuse" ∨ c = "shuffle" ∨ c = "exploding" := by
  refine ⟨_, generateLoop_eq src 5 0 [], by simp, ?_⟩
  intro c hc
  simp only [List.nil_append, List.mem_map, List.mem_range] at hc
  obtain ⟨j, -, rfl⟩ := hc
  have hlt : Intn (src (0 + j)) 4 < 4 := Nat.mod_lt _ (by norm_num)
  obtain ⟨name, hname, hmem⟩ := CHARACTERS_get_lt _ hlt
  rw [hname]
  simpa [CHARACTERS] using hmem

/-- C9: the deck is the sequence of the five draws in draw order, element `i` being
`CHARACTERS[d_i]` for the index `d_i` drawn in round `i`; and for each of the four
names and each of the five positions some outcome of the random source puts
that name at that position. -/
theorem generateRandomCards_draw_order :
    (∀ (src : Nat → Nat) (i : Nat), i < 5 →
      ∃ deck, generateRandomCards src = some deck ∧
        deck.get? i = CHARACTERS.get? (Intn (src i) CHARACTERS.length)) ∧
    (∀ (name : String) (i : Nat), name ∈ CHARACTERS → i < 5 →
      ∃ src deck, generateRandomCards src = some deck ∧ deck.get? i = some name) := by
  have key : ∀ (src : Nat → Nat) (i : Nat), i < 5 →
      ∃ deck, generateRandomCards src = some deck ∧
        deck.get? i = CHARACTERS.get? (Intn (src i) CHARACTERS.length) := by
    intro src i hi
    refine ⟨_, generateLoop_eq src 5 0 [], ?_⟩
    have hlt : Intn (src i) 4 < 4 := Nat.mod_lt _ (by norm_num)
    obtain ⟨name, hname, -⟩ := CHARACTERS_get_lt _ hlt
    simp only [List.get?_eq_getElem?] at hname
    simp [CHARACTERS_length, hname, hi, List.getElem?_map, List.getElem?_range]
  refine ⟨key, ?_⟩
  intro name i hname hi
  obtain ⟨k, hk, hget⟩ : ∃ k, k < 4 ∧ CHARACTERS.get? k = some name := by
    simp only [CHARACTERS, List.mem_cons, List.mem_singleton, List.not_mem_nil, or_false] at hname
    rcases hname with rfl | rfl | rfl | rfl
    · exact ⟨0, by norm_num, rfl⟩
    · exact ⟨1, by norm_num, rfl⟩
    · exact ⟨2, by norm_num, rfl⟩
    · exact ⟨3, by norm_num, rfl⟩
  obtain ⟨deck, hdeck, hi2⟩ := key (fun _ => k) i hi
  refine ⟨fun _ => k, deck, hdeck, ?_⟩
  rw [hi2, CHARACTERS_length]
  simpa [Intn, Nat.mod_eq_of_lt hk] using hget
/-- Witness for C9: the deck of a concrete outcome holds, at position 2, the name drawn in
round 2. -/
theorem generateRandomCards_draw_order_witness :
    (2 : Nat) < 5 ∧
    ∃ deck, generateRandomCards (fun i => 7 * i + 1) = some deck ∧
      deck.get? 2 = CHARACTERS.get? (Intn ((fun i => 7 * i + 1) 2) CHARACTERS.length) :=
  ⟨by decide, generateRandomCards_draw_order.1 (fun i => 7 * i + 1) 2 (by decide)⟩

/-! ## Listing: proofs -/

/-- The loop of `getAllUsernamesHandler` appends, in key order, the record of each key
that passes the type check and the field fetch. -/
theorem getAllLoop_eq (f : Faults) (σ : Store) (keys : List String) (acc : List PlayerData) :
    getAllLoop f σ keys acc = acc ++ keys.filterMap (listedRecord f σ) := by
  induction keys generalizing acc with
  | nil => simp [getAllLoop]
  | cons key rest ih =>
    simp only [getAllLoop, listedRecord, List.filterMap_cons]
    cases hty : clientType f σ key with
    | none => simp [ih, listedRecord]
    | some keyType =>
      by_cases hk : keyType = "hash"
      · subst hk
        cases hget : clientHGetAll f σ key with
        | none => simp [ih, listedRecord]
        | some details => simp [ih, listedRecord, List.append_assoc]
      · simp [hk, ih, listedRecord]

/-- C4: when the key listing succeeds, `getAllUsernamesHandler` answers 200 and its players
list holds, in listing order, exactly one record for each listed key whose type
lookup gives `hash` and whose fields can be fetched; other keys contribute
nothing, and an empty store gives the empty list. -/
theorem getAllUsernamesHandler_lists_hash_keys (f : Faults) (σ : Store)
    (hkeys : f.keysFails = false) :
    (∃ userKeys, clientKeys f σ "player:" = some userKeys ∧
      userKeys = (σ.map Prod.fst).filter (fun key => "player:".data.isPrefixOf key.data) ∧
      getAllUsernamesHandler f σ =
        ⟨StatusOK, Body.players (userKeys.filterMap (listedRecord f σ))⟩) ∧
    getAllUsernamesHandler f [] = ⟨StatusOK, Body.players []⟩ := by
  constructor
  · refine ⟨(σ.map Prod.fst).filter (matchesGlob "player:"), by simp [clientKeys, hkeys], rfl, ?_⟩
    simp [getAllUsernamesHandler, clientKeys, hkeys, getAllLoop_eq]
  · simp [getAllUsernamesHandler, clientKeys, hkeys, getAllLoop]

/-- Witness for C4: a store with a string and an empty hash under `player:` keys lists one
record, that of the hash. -/
theorem getAllUsernamesHandler_lists_hash_keys_witness :
    noFaults.keysFails = false ∧
    (∃ userKeys,
      clientKeys noFaults [("player:7", RedisValue.string "x"), ("player:9", RedisValue.hash [])]
        "player:" = some userKeys ∧
      userKeys = ["player:7", "player:9"] ∧
      getAllUsernamesHandler noFaults
          [("player:7", RedisValue.string "x"), ("player:9", RedisValue.hash [])] =
        ⟨StatusOK, Body.players [⟨"", "", 0, 0, 0, ""⟩]⟩) := by
  refine ⟨rfl, ?_⟩
  obtain ⟨⟨userKeys, h1, h2, h3⟩, -⟩ := getAllUsernamesHandler_lists_hash_keys noFaults
    [("player:7", RedisValue.string "x"), ("player:9", RedisValue.hash [])] rfl
  refine ⟨userKeys, h1, ?_, ?_⟩
  · rw [h2]; decide
  · rw [h3, h2]; decide
/-! ## strconv: proofs -/

theorem le_leadingDigitsValue (cs : List Char) (n : Nat) : n ≤ leadingDigitsValue cs n := by
  induction cs generalizing n with
  | nil => simp [leadingDigitsValue]
  | cons c cs ih =>
    simp only [leadingDigitsValue]
    split_ifs with h
    · exact le_trans (by omega) (ih _)
    · exact le_refl n

/-- The unsigned digit loop reports a syntax error, with value 0, on a text that holds a
byte other than a digit, as long as the digits in front of that byte do not
overflow 64 bits. -/
theorem parseUintLoop_syntax (cs : List Char) (n : Nat) (hnot : cs.all isDigit = false)
    (hval : leadingDigitsValue cs n < 2 ^ 64) :
    parseUintLoop cs n = (0, some NumError.syntaxError) := by
  induction cs generalizing n with
  | nil => simp at hnot
  | cons c cs ih =>
    simp only [parseUintLoop]
    by_cases hd : 48 ≤ c.toNat ∧ c.toNat ≤ 57
    · have hall : cs.all isDigit = false := by
        simpa [List.all_cons, isDigit, hd] using hnot
      simp only [leadingDigitsValue, hd, and_self, if_true] at hval
      have hle := le_leadingDigitsValue cs (n * 10 + (c.toNat - 48))
      have hn : n * 10 + (c.toNat - 48) < 2 ^ 64 := lt_of_le_of_lt hle hval
      have h1 : ¬ n ≥ (2 ^ 64 - 1) / 10 + 1 := by norm_num at hn ⊢; omega
      have h2 : wrapUint 64 (n * 10) = n * 10 := by
        unfold wrapUint; apply Nat.mod_eq_of_lt; omega
      have h3 : wrapUint 64 (n * 10 + (c.toNat - 48)) = n * 10 + (c.toNat - 48) := by
        unfold wrapUint; exact Nat.mod_eq_of_lt hn
      have h4 : ¬ (n * 10 + (c.toNat - 48) < n * 10 ∨
          n * 10 + (c.toNat - 48) > 2 ^ intSize - 1) := by
        simp only [intSize]; norm_num at hn ⊢; omega
      simp only [hd, and_self, if_true, h1, if_false, h2, h3, h4]
      exact ih _ hall hval
    · simp [hd]

theorem atoiFastLoop_none (cs : List Char) (n : Int) (hnot : cs.all isDigit = false) :
    atoiFastLoop cs n = none := by
  induction cs generalizing n with
  | nil => simp at hnot
  | cons c cs ih =>
    simp only [atoiFastLoop]
    by_cases hd : 48 ≤ c.toNat ∧ c.toNat ≤ 57
    · have hall : cs.all isDigit = false := by
        simpa [List.all_cons, isDigit, hd] using hnot
      simp only [hd, and_self, if_true]
      exact ih _ hall
    · simp [hd]

theorem wrapInt_zero : wrapInt intSize 0 = 0 := by
  simp [wrapInt, intSize]

/-- The function `Atoi` returns 0 with a syntax error for a string that is not a decimal
numeral and whose leading digits, if any, stay below 2^64. -/
theorem Atoi_not_numeral (s : String) (hnum : isDecimalInteger s = false)
    (hval : leadingDigitsValue (unsignedPart s) 0 < 2 ^ 64) :
    Atoi s = (0, some NumError.syntaxError) := by
  unfold Atoi
  simp only
  split_ifs with hlen
  · -- fast path
    cases hdata : s.data with
    | nil => rfl
    | cons c cs =>
      simp only [isDecimalInteger, unsignedPart, hdata] at hnum
      simp only
      by_cases hs : c = '-' ∨ c = '+'
      · have hs' : c = '+' ∨ c = '-' := hs.symm
        simp only [hs, hs', decide_True, if_true] at hnum ⊢
        cases cs with
        | nil => simp
        | cons d ds =>
          have hall : (d :: ds).all isDigit = false := by simpa using hnum
          simp [atoiFastLoop_none _ _ hall]
      · have hs' : ¬ (c = '+' ∨ c = '-') := fun h => hs h.symm
        simp only [hs, hs', decide_False, if_false] at hnum ⊢
        have hall : (c :: cs).all isDigit = false := by simpa using hnum
        simp [atoiFastLoop_none _ _ hall]
  · -- slow path
    have hP : ParseInt s.data = (0, some NumError.syntaxError) := by
      cases hdata : s.data with
      | nil => rfl
      | cons c cs =>
        simp only [isDecimalInteger, unsignedPart, hdata] at hnum hval
        simp only [ParseInt]
        by_cases hs : c = '+' ∨ c = '-'
        · simp only [hs, if_true] at hnum hval ⊢
          cases cs with
          | nil => simp [ParseUint]
          | cons d ds =>
            have hall : (d :: ds).all isDigit = false := by simpa using hnum
            simp [ParseUint, parseUintLoop_syntax _ _ hall hval]
        · simp only [hs, if_false] at hnum hval ⊢
          have hall : (c :: cs).all isDigit = false := by simpa using hnum
          simp [ParseUint, parseUintLoop_syntax _ _ hall hval]
    rw [hP]
    simp [wrapInt_zero]
/-! ## Hashes and the store: proofs -/

theorem mapIndex_hashSet_same (fields : List (String × String)) (field value : String) :
    mapIndex (hashSet fields field value) field = value := by
  induction fields with
  | nil => simp [hashSet, mapIndex]
  | cons p rest ih =>
    obtain ⟨g, w⟩ := p
    by_cases h : g = field
    · simp [hashSet, mapIndex, h]
    · simp [hashSet, mapIndex, h, ih]

theorem mapIndex_hashSet_ne (fields : List (String × String)) (field value other : String)
    (h : field ≠ other) :
    mapIndex (hashSet fields field value) other = mapIndex fields other := by
  induction fields with
  | nil => simp [hashSet, mapIndex, h]
  | cons p rest ih =>
    obtain ⟨g, w⟩ := p
    by_cases hg : g = field
    · subst hg
      simp [hashSet, mapIndex, h]
    · by_cases ho : g = other
      · subst ho
        simp [hashSet, mapIndex, hg]
      · simp [hashSet, mapIndex, hg, ho, ih]

/-- Reading back the fields that `storeUsernameHandler` writes, whatever the hash held. -/
theorem mapIndex_newPlayerFields (old : List (String × String)) (id player created : String) :
    let fields := hashSetAll old (newPlayerFields id player created)
    mapIndex fields "id" = id ∧ mapIndex fields "player" = player ∧
      mapIndex fields "wins" = "0" ∧ mapIndex fields "losses" = "0" ∧
      mapIndex fields "total" = "0" ∧ mapIndex fields "created" = created := by
  have hz : FormatInt 0 = "0" := by decide
  simp only [hashSetAll, newPlayerFields, List.foldl_cons, List.foldl_nil, hz]
  refine ⟨?_, ?_, ?_, ?_, ?_, ?_⟩
  · rw [mapIndex_hashSet_ne _ _ _ _ (by decide), mapIndex_hashSet_ne _ _ _ _ (by decide),
      mapIndex_hashSet_ne _ _ _ _ (by decide), mapIndex_hashSet_ne _ _ _ _ (by decide),
      mapIndex_hashSet_ne _ _ _ _ (by decide), mapIndex_hashSet_same]
  · rw [mapIndex_hashSet_ne _ _ _ _ (by decide), mapIndex_hashSet_ne _ _ _ _ (by decide),
      mapIndex_hashSet_ne _ _ _ _ (by decide), mapIndex_hashSet_ne _ _ _ _ (by decide),
      mapIndex_hashSet_same]
  · rw [mapIndex_hashSet_ne _ _ _ _ (by decide), mapIndex_hashSet_ne _ _ _ _ (by decide),
      mapIndex_hashSet_ne _ _ _ _ (by decide), mapIndex_hashSet_same]
  · rw [mapIndex_hashSet_ne _ _ _ _ (by decide), mapIndex_hashSet_ne _ _ _ _ (by decide),
      mapIndex_hashSet_same]
  · rw [mapIndex_hashSet_ne _ _ _ _ (by decide), mapIndex_hashSet_same]
  · rw [mapIndex_hashSet_same]

theorem find_append_new (σ : Store) (key : String) (v : RedisValue) (h : σ.find key = none) :
    Store.find (σ ++ [(key, v)]) key = some v := by
  induction σ with
  | nil => simp [Store.find]
  | cons p rest ih =>
    obtain ⟨k, w⟩ := p
    by_cases hk : k = key
    · simp [Store.find, hk] at h
    · simp only [Store.find, hk, if_false] at h
      simp [Store.find, hk, ih h]

theorem find_append_other (σ : Store) (key other : String) (v : RedisValue) (h : key ≠ other) :
    Store.find (σ ++ [(key, v)]) other = σ.find other := by
  induction σ with
  | nil => simp [Store.find, h]
  | cons p rest ih =>
    obtain ⟨k, w⟩ := p
    by_cases hk : k = other
    · simp [Store.find, hk]
    · simp [Store.find, hk, ih]

theorem find_replace_same (σ : Store) (key : String) (v w : RedisValue)
    (h : σ.find key = some w) : Store.find (σ.replace key v) key = some v := by
  induction σ with
  | nil => simp [Store.find] at h
  | cons p rest ih =>
    obtain ⟨k, u⟩ := p
    by_cases hk : k = key
    · simp [Store.find, Store.replace, hk]
    · simp only [Store.find, hk, if_false] at h
      simp [Store.find, Store.replace, hk, ih h]

theorem find_replace_other (σ : Store) (key other : String) (v : RedisValue) (h : key ≠ other) :
    Store.find (σ.replace key v) other = σ.find other := by
  induction σ with
  | nil => simp [Store.find, Store.replace]
  | cons p rest ih =>
    obtain ⟨k, u⟩ := p
    by_cases hk : k = key
    · subst hk
      simp [Store.find, Store.replace, h]
    · by_cases ho : k = other
      · subst ho
        simp [Store.find, Store.replace, hk]
      · simp [Store.find, Store.replace, hk, ho, ih]

theorem mem_keys_of_find (σ : Store) (key : String) (v : RedisValue) (h : σ.find key = some v) :
    key ∈ σ.map Prod.fst := by
  induction σ with
  | nil => simp [Store.find] at h
  | cons p rest ih =>
    obtain ⟨k, u⟩ := p
    by_cases hk : k = key
    · simp [hk]
    · simp only [Store.find, hk, if_false] at h
      simp [ih h]

/-- A successful `HMSet` leaves a hash under the key that holds the written fields, and
leaves every other key as it was. -/
theorem clientHMSet_some (f : Faults) (σ σ' : Store) (key : String)
    (fields : List (String × String)) (h : clientHMSet f σ key fields = some σ') :
    (∃ old, σ'.find key = some (RedisValue.hash (hashSetAll old fields))) ∧
      ∀ other, key ≠ other → σ'.find other = σ.find other := by
  unfold clientHMSet at h
  split_ifs at h
  cases hfind : σ.find key with
  | none =>
    simp only [hfind, Option.some.injEq] at h
    subst h
    exact ⟨⟨[], find_append_new σ key _ hfind⟩, fun other ho => find_append_other σ key other _ ho⟩
  | some v =>
    cases v with
    | hash old =>
      simp only [hfind, Option.some.injEq] at h
      subst h
      exact ⟨⟨old, find_replace_same σ key _ _ hfind⟩,
        fun other ho => find_replace_other σ key other _ ho⟩
    | string _ => simp [hfind] at h
    | list _ => simp [hfind] at h
    | set _ => simp [hfind] at h
    | zset _ => simp [hfind] at h

theorem matchesGlob_playerKey (id : String) : matchesGlob "player:" (playerKey id) = true := by
  simp [matchesGlob, playerKey, String.data_append]

theorem playerKey_injective (a b : String) (h : playerKey a = playerKey b) : a = b := by
  have h2 := congrArg String.data h
  simp only [playerKey, String.data_append] at h2
  exact String.ext (List.append_cancel_left h2)

/-- A listed key that passes the type check and the fetch has its record in the answer. -/
theorem mem_getAll_of_hash (f : Faults) (σ : Store) (key : String)
    (fields : List (String × String)) (hkeys : f.keysFails = false)
    (hty : f.typeFails key = false) (hget : f.hgetallFails key = false)
    (hglob : matchesGlob "player:" key = true)
    (hfind : σ.find key = some (RedisValue.hash fields)) :
    ∃ ps, getAllUsernamesHandler f σ = ⟨StatusOK, Body.players ps⟩ ∧ toPlayerData fields ∈ ps := by
  refine ⟨_, by simp only [getAllUsernamesHandler, clientKeys, hkeys, getAllLoop_eq]; rfl, ?_⟩
  simp only [List.nil_append, List.mem_filterMap, List.mem_filter]
  refine ⟨key, ⟨mem_keys_of_find σ key _ hfind, hglob⟩, ?_⟩
  simp [listedRecord, clientType, clientHGetAll, hty, hget, hfind, RedisValue.typeName]

/-- Every record of the answer is the conversion of the fields of some hash. -/
theorem getAll_mem_toPlayerData (f : Faults) (σ : Store) (ps : List PlayerData)
    (h : getAllUsernamesHandler f σ = ⟨StatusOK, Body.players ps⟩) (r : PlayerData) (hr : r ∈ ps) :
    ∃ details, r = toPlayerData details := by
  unfold getAllUsernamesHandler at h
  cases hk : clientKeys f σ "player:" with
  | none => simp [hk] at h
  | some userKeys =>
    simp only [hk, getAllLoop_eq, List.nil_append, Response.mk.injEq, Body.players.injEq,
      true_and] at h
    subst h
    simp only [List.mem_filterMap, listedRecord] at hr
    obtain ⟨key, -, hrec⟩ := hr
    split_ifs at hrec
    cases hg : clientHGetAll f σ key with
    | none => simp [hg] at hrec
    | some details => exact ⟨details, by simpa [hg] using hrec.symm⟩
/-! ## Storing and listing: proofs -/

theorem ShouldBindJSON_player (p : String) (hp : p ≠ "") :
    ShouldBindJSON (RequestBody.value (Json.obj [("player", Json.str p)])) = Except.ok p := by
  have hm : matchesPlayerTag "player" = true := by decide
  simp [ShouldBindJSON, bindValue, decodeMembers, hm, hp]

/-- The outcome of `storeUsernameHandler` once the body has bound to `player`: status 200
exactly when the write went through. -/
theorem storeUsernameHandler_ok (f : Faults) (clk : Clock) (σ : Store) (body : RequestBody)
    (h : (storeUsernameHandler f clk σ body).1.status = StatusOK) :
    ∃ player, ShouldBindJSON body = Except.ok player ∧
      clientHMSet f σ (playerKey (FormatInt clk.idNano))
        (newPlayerFields (FormatInt clk.idNano) player
          (formatRFC3339 clk.createdNano clk.zoneOffset)) =
        some (storeUsernameHandler f clk σ body).2 := by
  unfold storeUsernameHandler at h ⊢
  cases hb : ShouldBindJSON body with
  | error e => simp [hb, StatusBadRequest, StatusOK] at h
  | ok player =>
    simp only [hb] at h ⊢
    cases hw : clientHMSet f σ (playerKey (FormatInt clk.idNano))
        (newPlayerFields (FormatInt clk.idNano) player
          (formatRFC3339 clk.createdNano clk.zoneOffset)) with
    | none => simp [hw, StatusInternalServerError, StatusOK] at h
    | some σ' => exact ⟨player, rfl, by simp [hw]⟩

theorem Atoi_zero : Atoi "0" = (0, none) := by decide

/-- C2: for every store, clock reading and non-empty player string `p`, if the store
accepts the write of `storeUsernameHandler` for the body with `player` set to `p`,
then `getAllUsernamesHandler` on the resulting store, its listing and its reads
of the new key succeeding, answers 200 with a players list that holds a record
with player `p` and wins, losses and total all 0. -/
theorem store_then_list_yields_record (f f2 : Faults) (clk : Clock) (σ : Store) (p : String)
    (hp : p ≠ "")
    (hok : (storeUsernameHandler f clk σ
      (RequestBody.value (Json.obj [("player", Json.str p)]))).1.status = StatusOK)
    (hkeys : f2.keysFails = false)
    (hty : f2.typeFails (playerKey (FormatInt clk.idNano)) = false)
    (hget : f2.hgetallFails (playerKey (FormatInt clk.idNano)) = false) :
    ∃ ps, getAllUsernamesHandler f2 (storeUsernameHandler f clk σ
        (RequestBody.value (Json.obj [("player", Json.str p)]))).2 =
          ⟨StatusOK, Body.players ps⟩ ∧
      ∃ r ∈ ps, r.Player = p ∧ r.Wins = 0 ∧ r.Losses = 0 ∧ r.Total = 0 := by
  obtain ⟨player, hbind, hw⟩ := storeUsernameHandler_ok f clk σ _ hok
  rw [ShouldBindJSON_player p hp] at hbind
  cases hbind
  obtain ⟨⟨old, hfind⟩, -⟩ := clientHMSet_some _ _ _ _ _ hw
  obtain ⟨ps, hps, hmem⟩ := mem_getAll_of_hash f2 _ _ _ hkeys hty hget
    (matchesGlob_playerKey _) hfind
  obtain ⟨-, h2, h3, h4, -, -⟩ := mapIndex_newPlayerFields old (FormatInt clk.idNano) p
    (formatRFC3339 clk.createdNano clk.zoneOffset)
  refine ⟨ps, hps, _, hmem, ?_, ?_, ?_, ?_⟩
  · simpa [toPlayerData] using h2
  · simp [toPlayerData, h3, Atoi_zero]
  · simp [toPlayerData, h4, Atoi_zero]
  · simp [toPlayerData, h3, h4, Atoi_zero, wrapInt_zero]

/-- Witness for C2: storing `bob` in a store that holds a string key and listing afterwards. -/
theorem store_then_list_yields_record_witness :
    ("bob" : String) ≠ "" ∧
    ∃ ps, getAllUsernamesHandler noFaults (storeUsernameHandler noFaults ⟨1500000000, 1500000200, 0⟩
        [("player:1", RedisValue.string "x")]
        (RequestBody.value (Json.obj [("player", Json.str "bob")]))).2 =
          ⟨StatusOK, Body.players ps⟩ ∧
      ∃ r ∈ ps, r.Player = "bob" ∧ r.Wins = 0 ∧ r.Losses = 0 ∧ r.Total = 0 :=
  ⟨by decide, store_then_list_yields_record noFaults noFaults ⟨1500000000, 1500000200, 0⟩
    [("player:1", RedisValue.string "x")] "bob" (by decide) (by decide) rfl rfl rfl⟩
/-! ## Counters and totals: proofs -/

theorem mapIndex_absent (fields : List (String × String)) (field : String)
    (h : ∀ p ∈ fields, p.1 ≠ field) : mapIndex fields field = "" := by
  induction fields with
  | nil => rfl
  | cons p rest ih =>
    obtain ⟨g, w⟩ := p
    have hg : g ≠ field := h (g, w) (by simp)
    simp only [mapIndex, hg, if_false]
    exact ih (fun q hq => h q (by simp [hq]))

/-- C5 as stated fails: a `wins` text that is no integer numeral, its digits running past
64 bits before the stray byte, is listed as the largest `int`, not as 0. -/
theorem wins_overflowing_text_not_zero :
    isDecimalInteger "99999999999999999999x" = false ∧
    (Atoi "99999999999999999999x").2 = some NumError.rangeError ∧
    getAllUsernamesHandler noFaults
      [("player:1", RedisValue.hash
        [("player", "eve"), ("wins", "99999999999999999999x"), ("losses", "0")])] =
      ⟨StatusOK, Body.players [⟨"", "eve", 9223372036854775807, 0, 9223372036854775807, ""⟩]⟩ := by
  decide

/-- C5, amended: a hash record under a `player:` key whose reads succeed is listed, and its
wins (respectively losses) are reported as 0 when the stored field is absent, or
is a string that is not a decimal integer numeral and whose leading digits stay
below 2^64. -/
theorem unparsable_counters_listed_as_zero (f : Faults) (σ : Store) (key : String)
    (fields : List (String × String)) (hkeys : f.keysFails = false)
    (hty : f.typeFails key = false) (hget : f.hgetallFails key = false)
    (hglob : matchesGlob "player:" key = true)
    (hfind : σ.find key = some (RedisValue.hash fields)) :
    ∃ ps, getAllUsernamesHandler f σ = ⟨StatusOK, Body.players ps⟩ ∧ toPlayerData fields ∈ ps ∧
      ((∀ p ∈ fields, p.1 ≠ "wins") → (toPlayerData fields).Wins = 0) ∧
      ((∀ p ∈ fields, p.1 ≠ "losses") → (toPlayerData fields).Losses = 0) ∧
      (isDecimalInteger (mapIndex fields "wins") = false →
        leadingDigitsValue (unsignedPart (mapIndex fields "wins")) 0 < 2 ^ 64 →
        (toPlayerData fields).Wins = 0) ∧
      (isDecimalInteger (mapIndex fields "losses") = false →
        leadingDigitsValue (unsignedPart (mapIndex fields "losses")) 0 < 2 ^ 64 →
        (toPlayerData fields).Losses = 0) := by
  obtain ⟨ps, hps, hmem⟩ := mem_getAll_of_hash f σ key fields hkeys hty hget hglob hfind
  have hempty : Atoi "" = (0, some NumError.syntaxError) := by decide
  refine ⟨ps, hps, hmem, ?_, ?_, ?_, ?_⟩
  · intro h
    simp [toPlayerData, mapIndex_absent fields "wins" h, hempty]
  · intro h
    simp [toPlayerData, mapIndex_absent fields "losses" h, hempty]
  · intro h1 h2
    simp [toPlayerData, Atoi_not_numeral _ h1 h2]
  · intro h1 h2
    simp [toPlayerData, Atoi_not_numeral _ h1 h2]

/-- Witness for C5: a record whose `wins` is the text `many` and that has no `losses` field. -/
theorem unparsable_counters_listed_as_zero_witness :
    noFaults.keysFails = false ∧
    ∃ ps, getAllUsernamesHandler noFaults
        [("player:1", RedisValue.hash [("player", "eve"), ("wins", "many")])] =
          ⟨StatusOK, Body.players ps⟩ ∧
      toPlayerData [("player", "eve"), ("wins", "many")] ∈ ps ∧
      (toPlayerData [("player", "eve"), ("wins", "many")]).Wins = 0 ∧
      (toPlayerData [("player", "eve"), ("wins", "many")]).Losses = 0 := by
  obtain ⟨ps, h1, h2, -, h4, h5, -⟩ := unparsable_counters_listed_as_zero noFaults
    [("player:1", RedisValue.hash [("player", "eve"), ("wins", "many")])] "player:1"
    [("player", "eve"), ("wins", "many")] rfl rfl rfl (by decide) (by decide)
  exact ⟨rfl, ps, h1, h2, h5 (by decide) (by decide), h4 (by decide)⟩

/-- C10 as stated fails: for stored wins 9223372036854775807 and losses 1 the reported total
is -9223372036854775808, not the sum of the reported wins and losses. -/
theorem total_overflow_differs_from_sum :
    getAllUsernamesHandler noFaults
      [("player:1", RedisValue.hash [("wins", "9223372036854775807"), ("losses", "1")])] =
      ⟨StatusOK, Body.players [⟨"", "", 9223372036854775807, 1, -9223372036854775808, ""⟩]⟩ ∧
    (-9223372036854775808 : Int) ≠ 9223372036854775807 + 1 := by
  decide

/-- C10, amended: for every record that `getAllUsernamesHandler` lists, the reported total is
the sum of the reported wins and losses in 64-bit `int` arithmetic; it equals the
exact sum whenever that sum lies in the `int` range, and it does not depend on
the stored `total` field. -/
theorem listed_total_is_int_sum (f : Faults) (σ : Store) (ps : List PlayerData)
    (h : getAllUsernamesHandler f σ = ⟨StatusOK, Body.players ps⟩) (r : PlayerData)
    (hr : r ∈ ps) :
    r.Total = wrapInt 64 (r.Wins + r.Losses) ∧
      (-2 ^ 63 ≤ r.Wins + r.Losses → r.Wins + r.Losses < 2 ^ 63 → r.Total = r.Wins + r.Losses) ∧
      ∃ details, r = toPlayerData details ∧
        ∀ v, (toPlayerData (hashSet details "total" v)).Total = r.Total := by
  obtain ⟨details, rfl⟩ := getAll_mem_toPlayerData f σ ps h r hr
  refine ⟨rfl, ?_, details, rfl, ?_⟩
  · intro h1 h2
    simp only [toPlayerData, wrapInt, intSize] at h1 h2 ⊢
    norm_num at h1 h2 ⊢
    omega
  · intro v
    simp only [toPlayerData]
    rw [mapIndex_hashSet_ne _ _ _ _ (by decide), mapIndex_hashSet_ne _ _ _ _ (by decide)]

/-- Witness for C10: stored wins 3, losses 4 and a stale total 99 are listed with total 7. -/
theorem listed_total_is_int_sum_witness :
    getAllUsernamesHandler noFaults
      [("player:1", RedisValue.hash [("wins", "3"), ("losses", "4"), ("total", "99")])] =
      ⟨StatusOK, Body.players [⟨"", "", 3, 4, 7, ""⟩]⟩ ∧
    (⟨"", "", 3, 4, 7, ""⟩ : PlayerData) ∈ [(⟨"", "", 3, 4, 7, ""⟩ : PlayerData)] ∧
    (7 : Int) = wrapInt 64 (3 + 4) :=
  ⟨by decide, by decide, (listed_total_is_int_sum noFaults
    [("player:1", RedisValue.hash [("wins", "3"), ("losses", "4"), ("total", "99")])]
    [⟨"", "", 3, 4, 7, ""⟩] (by decide) ⟨"", "", 3, 4, 7, ""⟩ (by decide)).1⟩
/-! ## Validation: proofs -/

/-- C3 as stated fails, on two bodies.  A body whose only key is `PLAYER` has no `player`
field, yet it binds.  A body that begins with an object that sets `player` and
goes on with stray text is malformed JSON, yet the decoder reads the object and
leaves the rest unread.  For both the handler answers 200 and writes a record. -/
theorem uppercase_key_or_trailing_text_is_accepted :
    ((∀ kv ∈ [("PLAYER", Json.str "bob")], kv.1 ≠ "player") ∧
      storeUsernameHandler noFaults ⟨5, 5, 0⟩ []
          (RequestBody.value (Json.obj [("PLAYER", Json.str "bob")])) =
        (⟨StatusOK, Body.message "player stored successfully"⟩,
          [("player:5", RedisValue.hash [("id", "5"), ("player", "bob"), ("wins", "0"),
            ("losses", "0"), ("total", "0"), ("created", "1970-01-01T00:00:00Z")])])) ∧
    (malformedJSON
        (RequestBody.valueThenText (Json.obj [("player", Json.str "bob")]) " trailing") = true ∧
      storeUsernameHandler noFaults ⟨5, 5, 0⟩ []
          (RequestBody.valueThenText (Json.obj [("player", Json.str "bob")]) " trailing") =
        (⟨StatusOK, Body.message "player stored successfully"⟩,
          [("player:5", RedisValue.hash [("id", "5"), ("player", "bob"), ("wins", "0"),
            ("losses", "0"), ("total", "0"), ("created", "1970-01-01T00:00:00Z")])])) := by
  decide

theorem decodeMembers_lacking (members : List (String × Json)) (err : Option String)
    (h : members.all (fun kv => !(matchesPlayerTag kv.1 && kv.2.isNonEmptyStr)) = true) :
    (decodeMembers members "" err).1 = "" := by
  induction members generalizing err with
  | nil => rfl
  | cons kv rest ih =>
    obtain ⟨key, v⟩ := kv
    simp only [List.all_cons, Bool.and_eq_true] at h
    obtain ⟨h1, h2⟩ := h
    simp only [decodeMembers]
    by_cases hm : matchesPlayerTag key = true
    · simp only [hm, if_true]
      cases v with
      | str s =>
        have hs : s = "" := by simpa [hm, Json.isNonEmptyStr] using h1
        subst hs
        exact ih _ h2
      | null => exact ih _ h2
      | bool b => exact ih _ h2
      | number n => exact ih _ h2
      | arr items => exact ih _ h2
      | obj ms => exact ih _ h2
    · simp only [hm]
      exact ih _ h2

theorem bindValue_lacking (v : Json) (h : v.lacksPlayer = true) :
    ∃ msg, bindValue v = Except.error msg := by
  cases v with
  | null => exact ⟨_, rfl⟩
  | bool b => exact ⟨_, rfl⟩
  | number n => exact ⟨_, rfl⟩
  | str s => exact ⟨_, rfl⟩
  | arr items => exact ⟨_, rfl⟩
  | obj members =>
    have hd := decodeMembers_lacking members none h
    simp only [bindValue]
    rcases hdm : decodeMembers members "" none with ⟨player, err⟩
    rw [hdm] at hd
    simp only at hd
    subst hd
    cases err with
    | none => exact ⟨_, if_pos rfl⟩
    | some e => exact ⟨e, rfl⟩

theorem ShouldBindJSON_lacking (body : RequestBody) (h : lacksPlayer body = true) :
    ∃ msg, ShouldBindJSON body = Except.error msg := by
  cases body with
  | rejected msg => exact ⟨msg, rfl⟩
  | value v => exact bindValue_lacking v h
  | valueThenText v rest => exact bindValue_lacking v h

/-- C3, amended: for every store and every request body from which the decoder cannot read a
leading JSON value, or whose leading JSON value is not an object, or is an object
in which no member named `player` (letter case ignored, as the decoder matches
names) holds a non-empty string, `storeUsernameHandler` answers 400 with an `error`
body and the store after the call equals the store before it.  Text after the
leading JSON value is not read: the handler treats a value followed by any text
as it treats the value alone. -/
theorem storeUsernameHandler_rejects_missing_player (f : Faults) (clk : Clock) (σ : Store)
    (body : RequestBody) (h : lacksPlayer body = true) :
    (∃ msg, storeUsernameHandler f clk σ body = (⟨StatusBadRequest, Body.error msg⟩, σ) ∧
      StatusBadRequest = 400) ∧
    ∀ v rest, storeUsernameHandler f clk σ (RequestBody.valueThenText v rest) =
      storeUsernameHandler f clk σ (RequestBody.value v) := by
  obtain ⟨msg, hmsg⟩ := ShouldBindJSON_lacking body h
  exact ⟨⟨msg, by simp [storeUsernameHandler, hmsg], rfl⟩, fun v rest => rfl⟩

/-- Witness for C3: a body with a `name` member and an empty `Player` member, followed by stray
text, is rejected. -/
theorem storeUsernameHandler_rejects_missing_player_witness :
    lacksPlayer (RequestBody.valueThenText
      (Json.obj [("name", Json.str "bob"), ("Player", Json.str "")]) " trailing") = true ∧
    ∃ msg, storeUsernameHandler noFaults ⟨5, 5, 0⟩ [("player:1", RedisValue.hash [])]
        (RequestBody.valueThenText
          (Json.obj [("name", Json.str "bob"), ("Player", Json.str "")]) " trailing") =
      (⟨StatusBadRequest, Body.error msg⟩, [("player:1", RedisValue.hash [])]) ∧
      StatusBadRequest = 400 :=
  ⟨by decide, (storeUsernameHandler_rejects_missing_player noFaults ⟨5, 5, 0⟩
    [("player:1", RedisValue.hash [])]
    (RequestBody.valueThenText
      (Json.obj [("name", Json.str "bob"), ("Player", Json.str "")]) " trailing")
    (by decide)).1⟩

/-! ## Keys: proofs -/

theorem digitChar_toNat (d : Nat) (h : d < 10) : (digitChar d).toNat = 48 + d := by
  interval_cases d <;> rfl

theorem digitsValue_append (xs : List Char) (c : Char) (n : Nat) :
    digitsValue (xs ++ [c]) n = digitsValue xs n * 10 + (c.toNat - 48) := by
  simp [digitsValue, List.foldl_append]

theorem digitsValue_decimalDigits (fuel n : Nat) (h : n < fuel) :
    digitsValue (decimalDigits fuel n) 0 = n := by
  induction fuel generalizing n with
  | zero => omega
  | succ k ih =>
    simp only [decimalDigits]
    split_ifs with hn
    · simp [digitsValue, digitChar_toNat n hn]
    · rw [digitsValue_append, ih (n / 10) (by omega),
        digitChar_toNat (n % 10) (Nat.mod_lt _ (by norm_num))]
      omega

theorem decimalDigits_isDigit (fuel n : Nat) : ∀ c ∈ decimalDigits fuel n, isDigit c = true := by
  induction fuel generalizing n with
  | zero => simp [decimalDigits]
  | succ k ih =>
    intro c hc
    simp only [decimalDigits] at hc
    split_ifs at hc with hn
    · simp only [List.mem_singleton] at hc
      subst hc
      simp only [isDigit, digitChar_toNat n hn]
      simp; omega
    · simp only [List.mem_append, List.mem_singleton] at hc
      rcases hc with hc | hc
      · exact ih _ c hc
      · subst hc
        have hm : n % 10 < 10 := Nat.mod_lt _ (by norm_num)
        simp only [isDigit, digitChar_toNat _ hm]
        simp; omega

theorem formatNat_injective (a b : Nat) (h : formatNat a = formatNat b) : a = b := by
  have ha := digitsValue_decimalDigits (a + 1) a (by omega)
  have hb := digitsValue_decimalDigits (b + 1) b (by omega)
  unfold formatNat at h
  rw [h] at ha
  omega

theorem formatNat_no_minus (n : Nat) (cs : List Char) : formatNat n ≠ '-' :: cs := by
  intro h
  have := decimalDigits_isDigit (n + 1) n '-' (by unfold formatNat at h; rw [h]; simp)
  simp [isDigit] at this

theorem String_mk_inj (xs ys : List Char) (h : String.mk xs = String.mk ys) : xs = ys :=
  congrArg String.data h

/-- Decimal rendering tells any two integers apart. -/
theorem FormatInt_injective (a b : Int) (h : FormatInt a = FormatInt b) : a = b := by
  unfold FormatInt at h
  split_ifs at h with ha hb hb
  · have h2 := String_mk_inj _ _ h
    simp only [List.cons.injEq, true_and] at h2
    have := formatNat_injective _ _ h2
    omega
  · exact absurd (String_mk_inj _ _ h).symm (formatNat_no_minus _ _)
  · exact absurd (String_mk_inj _ _ h) (formatNat_no_minus _ _)
  · have := formatNat_injective _ _ (String_mk_inj _ _ h)
    omega

/-- C6: for two clock readings `t1 ≠ t2` the keys built by `storeUsernameHandler` differ, so
two successful calls made at `t1` and then `t2` (either of the two may be the
smaller) leave two records with distinct ids, and the second call leaves the
record of the first call as the first call wrote it. -/
theorem distinct_readings_distinct_records :
    (∀ t1 t2 : Int, t1 ≠ t2 → playerKey (FormatInt t1) ≠ playerKey (FormatInt t2)) ∧
    ∀ (f1 f2 : Faults) (c1 c2 : Clock) (σ : Store) (b1 b2 : RequestBody),
      c1.idNano ≠ c2.idNano →
      (storeUsernameHandler f1 c1 σ b1).1.status = StatusOK →
      (storeUsernameHandler f2 c2 (storeUsernameHandler f1 c1 σ b1).2 b2).1.status = StatusOK →
      ∃ fs1 fs2,
        (storeUsernameHandler f1 c1 σ b1).2.find (playerKey (FormatInt c1.idNano)) =
          some (RedisValue.hash fs1) ∧
        (storeUsernameHandler f2 c2 (storeUsernameHandler f1 c1 σ b1).2 b2).2.find
          (playerKey (FormatInt c1.idNano)) = some (RedisValue.hash fs1) ∧
        (storeUsernameHandler f2 c2 (storeUsernameHandler f1 c1 σ b1).2 b2).2.find
          (playerKey (FormatInt c2.idNano)) = some (RedisValue.hash fs2) ∧
        mapIndex fs1 "id" = FormatInt c1.idNano ∧ mapIndex fs2 "id" = FormatInt c2.idNano ∧
        ShouldBindJSON b1 = Except.ok (mapIndex fs1 "player") ∧
        ShouldBindJSON b2 = Except.ok (mapIndex fs2 "player") ∧
        mapIndex fs1 "id" ≠ mapIndex fs2 "id" := by
  have hkey : ∀ t1 t2 : Int, t1 ≠ t2 → playerKey (FormatInt t1) ≠ playerKey (FormatInt t2) :=
    fun t1 t2 ht h => ht (FormatInt_injective _ _ (playerKey_injective _ _ h))
  refine ⟨hkey, ?_⟩
  intro f1 f2 c1 c2 σ b1 b2 ht h1 h2
  obtain ⟨p1, hb1, hw1⟩ := storeUsernameHandler_ok f1 c1 σ b1 h1
  obtain ⟨p2, hb2, hw2⟩ := storeUsernameHandler_ok f2 c2 _ b2 h2
  obtain ⟨⟨old1, hfind1⟩, -⟩ := clientHMSet_some _ _ _ _ _ hw1
  obtain ⟨⟨old2, hfind2⟩, hother⟩ := clientHMSet_some _ _ _ _ _ hw2
  obtain ⟨hid1, hp1, -⟩ := mapIndex_newPlayerFields old1 (FormatInt c1.idNano) p1
    (formatRFC3339 c1.createdNano c1.zoneOffset)
  obtain ⟨hid2, hp2, -⟩ := mapIndex_newPlayerFields old2 (FormatInt c2.idNano) p2
    (formatRFC3339 c2.createdNano c2.zoneOffset)
  refine ⟨_, _, hfind1, ?_, hfind2, hid1, hid2, ?_, ?_, ?_⟩
  · rw [hother _ (hkey _ _ (Ne.symm ht)), hfind1]
  · rw [hb1]; exact congrArg _ hp1.symm
  · rw [hb2]; exact congrArg _ hp2.symm
  · rw [hid1, hid2]
    exact fun h => ht (FormatInt_injective _ _ h)

/-- Witness for C6: calls at readings 7 and 3; the record of the first call survives the second. -/
theorem distinct_readings_distinct_records_witness :
    (7 : Int) ≠ 3 ∧
    (storeUsernameHandler noFaults ⟨7, 7, 0⟩ []
      (RequestBody.value (Json.obj [("player", Json.str "ann")]))).1.status = StatusOK ∧
    (storeUsernameHandler noFaults ⟨3, 8, 0⟩
      (storeUsernameHandler noFaults ⟨7, 7, 0⟩ []
        (RequestBody.value (Json.obj [("player", Json.str "ann")]))).2
      (RequestBody.value (Json.obj [("player", Json.str "bob")]))).2.find
        (playerKey (FormatInt 7)) =
      (storeUsernameHandler noFaults ⟨7, 7, 0⟩ []
        (RequestBody.value (Json.obj [("player", Json.str "ann")]))).2.find
        (playerKey (FormatInt 7)) := by
  refine ⟨by decide, by decide, ?_⟩
  obtain ⟨fs1, fs2, h1, h2, -⟩ := distinct_readings_distinct_records.2 noFaults noFaults
    ⟨7, 7, 0⟩ ⟨3, 8, 0⟩ [] (RequestBody.value (Json.obj [("player", Json.str "ann")]))
    (RequestBody.value (Json.obj [("player", Json.str "bob")])) (by decide) (by decide)
    (by decide)
  exact h2.trans h1.symm
/-! ## Persistence of records: proofs -/

/-- C7: the code breaks the claim where an id collides.  The store holds the record of
`alice` under `player:5`; a store-username request for `bob` whose clock reading
is 5 builds the same key, although the source calls the id unique, and its
write replaces the player, wins, losses and created fields of that record. -/
theorem colliding_id_overwrites_record :
    Store.find [("player:5", RedisValue.hash [("id", "5"), ("player", "alice"), ("wins", "2"),
        ("losses", "1"), ("total", "0"), ("created", "1970-01-01T00:00:00Z")])] "player:5" =
      some (RedisValue.hash [("id", "5"), ("player", "alice"), ("wins", "2"),
        ("losses", "1"), ("total", "0"), ("created", "1970-01-01T00:00:00Z")]) ∧
    (serve ⟨noFaults, ⟨5, 6000000000, 0⟩, fun _ => 0⟩
      [("player:5", RedisValue.hash [("id", "5"), ("player", "alice"), ("wins", "2"),
        ("losses", "1"), ("total", "0"), ("created", "1970-01-01T00:00:00Z")])]
      (Request.storeUsername (RequestBody.value (Json.obj [("player", Json.str "bob")])))).2.find
        "player:5" =
      some (RedisValue.hash [("id", "5"), ("player", "bob"), ("wins", "0"),
        ("losses", "0"), ("total", "0"), ("created", "1970-01-01T00:00:06Z")]) := by
  decide

theorem storeUsernameHandler_other_keys (f : Faults) (clk : Clock) (σ : Store)
    (body : RequestBody) (key : String) (hkey : key ≠ playerKey (FormatInt clk.idNano)) :
    (storeUsernameHandler f clk σ body).2.find key = σ.find key := by
  unfold storeUsernameHandler
  cases hb : ShouldBindJSON body with
  | error e => rfl
  | ok player =>
    simp only
    cases hw : clientHMSet f σ (playerKey (FormatInt clk.idNano))
        (newPlayerFields (FormatInt clk.idNano) player
          (formatRFC3339 clk.createdNano clk.zoneOffset)) with
    | none => rfl
    | some σ' => exact (clientHMSet_some _ _ _ _ _ hw).2 key (Ne.symm hkey)

/-- What the handlers do keep: requests other than store-username leave the store as it is;
after any request every key of the store is still present, and every key other
than `player:` followed by the decimal clock reading holds the value it held. -/
theorem serve_keeps_other_records (env : Env) (σ : Store) (req : Request) :
    ((∀ body, req ≠ Request.storeUsername body) → (serve env σ req).2 = σ) ∧
    (∀ key v, σ.find key = some v → ∃ w, (serve env σ req).2.find key = some w) ∧
    ∀ key v, σ.find key = some v → key ≠ playerKey (FormatInt env.clock.idNano) →
      (serve env σ req).2.find key = some v := by
  have hunchanged : (∀ body, req ≠ Request.storeUsername body) → (serve env σ req).2 = σ := by
    intro h
    cases req with
    | root => rfl
    | getAllUsernames => rfl
    | getRandomCards =>
      simp only [serve]
      cases generateRandomCards env.random <;> rfl
    | storeUsername body => exact absurd rfl (h body)
  have hother : ∀ key v, σ.find key = some v →
      key ≠ playerKey (FormatInt env.clock.idNano) →
      (serve env σ req).2.find key = some v := by
    intro key v hv hkey
    cases req with
    | root => exact hv
    | getAllUsernames => exact hv
    | getRandomCards => rw [hunchanged (fun body h => by cases h)]; exact hv
    | storeUsername body =>
      simp only [serve]
      rw [storeUsernameHandler_other_keys _ _ _ _ _ hkey, hv]
  refine ⟨hunchanged, ?_, hother⟩
  intro key v hv
  by_cases hkey : key = playerKey (FormatInt env.clock.idNano)
  · cases req with
    | root => exact ⟨v, hv⟩
    | getAllUsernames => exact ⟨v, hv⟩
    | getRandomCards => exact ⟨v, by rw [hunchanged (fun body h => by cases h)]; exact hv⟩
    | storeUsername body =>
      simp only [serve, storeUsernameHandler]
      cases hb : ShouldBindJSON body with
      | error e => exact ⟨v, hv⟩
      | ok player =>
        simp only
        cases hw : clientHMSet env.faults σ (playerKey (FormatInt env.clock.idNano))
            (newPlayerFields (FormatInt env.clock.idNano) player
              (formatRFC3339 env.clock.createdNano env.clock.zoneOffset)) with
        | none => exact ⟨v, hv⟩
        | some σ' =>
          obtain ⟨⟨old, hfind⟩, -⟩ := clientHMSet_some _ _ _ _ _ hw
          exact ⟨_, by rw [hkey]; exact hfind⟩
  · exact ⟨v, hother key v hv hkey⟩

/-! ## The calendar: proofs -/

/-- The cycle cutting of `absYear` splits a day count into whole years of the Gregorian
calendar and a day within the year. -/
theorem absYear_spec (D : Int) :
    D = 365 * ((absYear D).1 - 1) + ((absYear D).1 - 1) / 4 - ((absYear D).1 - 1) / 100
        + ((absYear D).1 - 1) / 400 + (absYear D).2 ∧
      0 ≤ (absYear D).2 ∧ (absYear D).2 < (if isLeap (absYear D).1 = true then 366 else 365) := by
  obtain ⟨a, ha⟩ : ∃ a, a = D / 146097 := ⟨_, rfl⟩
  obtain ⟨d1, hd1⟩ : ∃ d1, d1 = D - 146097 * a := ⟨_, rfl⟩
  obtain ⟨b0, hb0⟩ : ∃ b0, b0 = d1 / 36524 := ⟨_, rfl⟩
  obtain ⟨b, hb⟩ : ∃ b, b = b0 - b0 / 4 := ⟨_, rfl⟩
  obtain ⟨d2, hd2⟩ : ∃ d2, d2 = d1 - 36524 * b := ⟨_, rfl⟩
  obtain ⟨c, hc⟩ : ∃ c, c = d2 / 1461 := ⟨_, rfl⟩
  obtain ⟨d3, hd3⟩ : ∃ d3, d3 = d2 - 1461 * c := ⟨_, rfl⟩
  obtain ⟨e0, he0⟩ : ∃ e0, e0 = d3 / 365 := ⟨_, rfl⟩
  obtain ⟨e, he⟩ : ∃ e, e = e0 - e0 / 4 := ⟨_, rfl⟩
  obtain ⟨d4, hd4⟩ : ∃ d4, d4 = d3 - 365 * e := ⟨_, rfl⟩
  have hY : (absYear D).1 = 400 * a + 100 * b + 4 * c + e + 1 := by
    simp only [absYear]; subst_vars; rfl
  have hyd : (absYear D).2 = d4 := by
    simp only [absYear]; subst_vars; rfl
  rw [hY, hyd]
  have r1 : 0 ≤ d1 ∧ d1 < 146097 := by omega
  have r2 : 0 ≤ b ∧ b ≤ 3 := by omega
  have r3 : 0 ≤ d2 ∧ d2 ≤ 36524 ∧ (b < 3 → d2 < 36524) := by omega
  have r4 : 0 ≤ c ∧ c ≤ 24 := by omega
  have r5 : 0 ≤ d3 ∧ d3 ≤ 1460 ∧ (d2 < 36524 → c = 24 → d3 < 1460) := by omega
  have r6 : 0 ≤ e ∧ e ≤ 3 := by omega
  have r7 : 0 ≤ d4 ∧ d4 ≤ 365 ∧ (d3 < 1460 → d4 < 365) ∧ (e < 3 → d4 < 365) := by omega
  have q4 : (400 * a + 100 * b + 4 * c + e + 1 - 1) / 4 = 100 * a + 25 * b + c := by omega
  have q100 : (400 * a + 100 * b + 4 * c + e + 1 - 1) / 100 = 4 * a + b := by omega
  have q400 : (400 * a + 100 * b + 4 * c + e + 1 - 1) / 400 = a := by omega
  rw [q4, q100, q400]
  refine ⟨by omega, r7.1, ?_⟩
  by_cases hl : isLeap (400 * a + 100 * b + 4 * c + e + 1) = true
  · rw [if_pos hl]; omega
  · rw [if_neg hl]
    simp only [isLeap, decide_eq_true_eq, not_and, not_or, not_not] at hl
    by_contra hcon
    have hd4' : d4 = 365 := by omega
    have he3 : e = 3 := by omega
    have hd3' : d3 = 1460 := by omega
    have hm4 : (400 * a + 100 * b + 4 * c + e + 1) % 4 = 0 := by omega
    have := hl hm4
    omega
theorem monthOfDay_aux (day month : Int) (hm0 : 0 ≤ month) (hm1 : month ≤ 11)
    (hlo : month * 31 ≤ day) (hhi : day < month * 31 + 31) (h1 : day < 365) :
    let md : Int × Int := if day ≥ daysBefore.getD (month + 1).toNat 0
      then (month + 2, day - daysBefore.getD (month + 1).toNat 0 + 1)
      else (month + 1, day - daysBefore.getD month.toNat 0 + 1)
    1 ≤ md.1 ∧ md.1 ≤ 12 ∧ 1 ≤ md.2 ∧ md.2 ≤ 31 ∧
      daysBefore.getD (md.1 - 1).toNat 0 + (md.2 - 1) = day ∧
      (md.1 ≤ 2 ↔ day < 59) := by
  have t0 : (0 : Int).toNat = 0 := rfl
  have t1 : (1 : Int).toNat = 1 := rfl
  have t2 : (2 : Int).toNat = 2 := rfl
  have t3 : (3 : Int).toNat = 3 := rfl
  have t4 : (4 : Int).toNat = 4 := rfl
  have t5 : (5 : Int).toNat = 5 := rfl
  have t6 : (6 : Int).toNat = 6 := rfl
  have t7 : (7 : Int).toNat = 7 := rfl
  have t8 : (8 : Int).toNat = 8 := rfl
  have t9 : (9 : Int).toNat = 9 := rfl
  have t10 : (10 : Int).toNat = 10 := rfl
  have t11 : (11 : Int).toNat = 11 := rfl
  have t12 : (12 : Int).toNat = 12 := rfl
  interval_cases month <;>
    norm_num [daysBefore, t0, t1, t2, t3, t4, t5, t6, t7, t8, t9, t10, t11, t12] <;>
    split_ifs <;>
    norm_num [t0, t1, t2, t3, t4, t5, t6, t7, t8, t9, t10, t11, t12] <;>
    omega

/-- The month and day that `monthOfDay` gives for a day of a non-leap year. -/
theorem monthOfDay_spec (day : Int) (h0 : 0 ≤ day) (h1 : day < 365) :
    1 ≤ (monthOfDay day).1 ∧ (monthOfDay day).1 ≤ 12 ∧
      1 ≤ (monthOfDay day).2 ∧ (monthOfDay day).2 ≤ 31 ∧
      daysBefore.getD ((monthOfDay day).1 - 1).toNat 0 + ((monthOfDay day).2 - 1) = day ∧
      ((monthOfDay day).1 ≤ 2 ↔ day < 59) :=
  monthOfDay_aux day (day / 31) (by omega) (by omega) (by omega) (by omega) h1
/-- The month and day that `monthDay` gives lie in the calendar and count back to the day of
the year. -/
theorem monthDay_spec (year yday : Int) (h0 : 0 ≤ yday)
    (h1 : yday < (if isLeap year = true then 366 else 365)) :
    1 ≤ (monthDay year yday).1 ∧ (monthDay year yday).1 ≤ 12 ∧
      1 ≤ (monthDay year yday).2 ∧ (monthDay year yday).2 ≤ 31 ∧
      daysBefore.getD ((monthDay year yday).1 - 1).toNat 0
        + (if isLeap year = true ∧ (monthDay year yday).1 > 2 then 1 else 0)
        + ((monthDay year yday).2 - 1) = yday := by
  unfold monthDay
  by_cases hl : isLeap year = true
  · rw [if_pos hl] at h1
    by_cases h59 : yday = 31 + 29 - 1
    · rw [if_pos ⟨hl, h59⟩]
      have t1 : (1 : Int).toNat = 1 := rfl
      norm_num [daysBefore, t1, h59]
    · rw [if_neg (fun h => h59 h.2)]
      by_cases hgt : yday > 31 + 29 - 1
      · rw [if_pos ⟨hl, hgt⟩]
        obtain ⟨a1, a2, a3, a4, a5, a6⟩ := monthOfDay_spec (yday - 1) (by omega) (by omega)
        have hm : (monthOfDay (yday - 1)).1 > 2 := by
          by_contra hcon
          have := a6.mp (by omega)
          omega
        refine ⟨a1, a2, a3, a4, ?_⟩
        rw [if_pos ⟨hl, hm⟩]
        omega
      · rw [if_neg (fun h => hgt h.2)]
        obtain ⟨a1, a2, a3, a4, a5, a6⟩ := monthOfDay_spec yday h0 (by omega)
        have hm : ¬ (monthOfDay yday).1 > 2 := by
          have := a6.mpr (by omega)
          omega
        refine ⟨a1, a2, a3, a4, ?_⟩
        rw [if_neg (fun h => hm h.2)]
        omega
  · rw [if_neg hl] at h1
    rw [if_neg (fun h => hl h.1), if_neg (fun h => hl h.1), if_neg (fun h => hl h.1)]
    obtain ⟨a1, a2, a3, a4, a5, -⟩ := monthOfDay_spec yday h0 h1
    exact ⟨a1, a2, a3, a4, by omega⟩

/-- Counting the days of the date that `absDate` gives leads back to the day count. -/
theorem daysSinceYearOne_absDate (D : Int) :
    daysSinceYearOne (absDate D).1 (absDate D).2.1 (absDate D).2.2 = D ∧
      1 ≤ (absDate D).2.1 ∧ (absDate D).2.1 ≤ 12 ∧
      1 ≤ (absDate D).2.2 ∧ (absDate D).2.2 ≤ 31 := by
  obtain ⟨h1, h2, h3⟩ := absYear_spec D
  obtain ⟨m1, m2, m3, m4, m5⟩ := monthDay_spec (absYear D).1 (absYear D).2 h2 h3
  simp only [absDate, daysSinceYearOne]
  refine ⟨?_, m1, m2, m3, m4⟩
  omega
/-! ## Timestamps: proofs -/

theorem decimalDigits_fuel (fuel1 fuel2 n : Nat) (h1 : n < fuel1) (h2 : n < fuel2) :
    decimalDigits fuel1 n = decimalDigits fuel2 n := by
  induction fuel1 generalizing fuel2 n with
  | zero => omega
  | succ k ih =>
    cases fuel2 with
    | zero => omega
    | succ m =>
      simp only [decimalDigits]
      split_ifs with hn
      · rfl
      · rw [ih m (n / 10) (by omega) (by omega)]

theorem formatNat_small (n : Nat) (h : n < 10) : formatNat n = [digitChar n] := by
  simp [formatNat, decimalDigits, h]

theorem formatNat_step (n : Nat) (h : ¬ n < 10) :
    formatNat n = formatNat (n / 10) ++ [digitChar (n % 10)] := by
  show decimalDigits (n + 1) n = decimalDigits (n / 10 + 1) (n / 10) ++ [digitChar (n % 10)]
  rw [decimalDigits, if_neg h, decimalDigits_fuel n (n / 10 + 1) (n / 10) (by omega) (by omega)]

theorem fixedDigits_zero (w : Nat) : fixedDigits w 0 = List.replicate w '0' := by
  induction w with
  | zero => rfl
  | succ k ih =>
    simp only [fixedDigits, Nat.zero_div, ih, Nat.zero_mod]
    rw [List.replicate_succ']
    rfl

/-- Padding the decimal digits of a number with zeros gives its fixed-width digits. -/
theorem pad_formatNat (w n : Nat) (h : n < 10 ^ (w + 1)) :
    List.replicate (w + 1 - (formatNat n).length) '0' ++ formatNat n = fixedDigits (w + 1) n := by
  induction w generalizing n with
  | zero =>
    have hn : n < 10 := by simpa using h
    simp [formatNat_small n hn, fixedDigits, Nat.mod_eq_of_lt hn]
  | succ k ih =>
    by_cases hn : n < 10
    · have hdiv : n / 10 = 0 := by omega
      rw [formatNat_small n hn]
      simp only [List.length_singleton, Nat.add_sub_cancel]
      rw [fixedDigits, hdiv, fixedDigits_zero, Nat.mod_eq_of_lt hn]
    · have hlt : n / 10 < 10 ^ (k + 1) := by
        rw [Nat.div_lt_iff_lt_mul (by norm_num)]
        calc n < 10 ^ (k + 1 + 1) := h
          _ = 10 ^ (k + 1) * 10 := by rw [pow_succ]
      have := ih (n / 10) hlt
      rw [formatNat_step n hn, List.length_append, List.length_singleton, Nat.add_sub_add_right,
        ← List.append_assoc, this]
      rfl

theorem appendInt_two (x : Int) (h0 : 0 ≤ x) (h1 : x < 100) :
    appendInt x 2 = [digitChar (x.toNat / 10 % 10), digitChar (x.toNat % 10)] := by
  have hx : x.natAbs = x.toNat := by omega
  have hlt : x.toNat < 10 ^ (1 + 1) := by norm_num; omega
  have := pad_formatNat 1 x.toNat hlt
  simp only [appendInt, hx, not_lt.mpr h0, if_false, List.nil_append]
  rw [this]
  simp [fixedDigits]

theorem appendInt_four (x : Int) (h0 : 0 ≤ x) (h1 : x < 10000) :
    appendInt x 4 = [digitChar (x.toNat / 10 / 10 / 10 % 10), digitChar (x.toNat / 10 / 10 % 10),
      digitChar (x.toNat / 10 % 10), digitChar (x.toNat % 10)] := by
  have hx : x.natAbs = x.toNat := by omega
  have hlt : x.toNat < 10 ^ (3 + 1) := by norm_num; omega
  have := pad_formatNat 3 x.toNat hlt
  simp only [appendInt, hx, not_lt.mpr h0, if_false, List.nil_append]
  rw [this]
  simp [fixedDigits]

theorem isDigit_digitChar (d : Nat) : isDigit (digitChar (d % 10)) = true := by
  have h : d % 10 < 10 := Nat.mod_lt _ (by norm_num)
  simp only [isDigit, digitChar_toNat _ h]
  simp; omega

theorem parseDigits_two (a b : Nat) :
    parseDigits [digitChar (a % 10), digitChar (b % 10)] = some (a % 10 * 10 + b % 10) := by
  have ha : a % 10 < 10 := Nat.mod_lt _ (by norm_num)
  have hb : b % 10 < 10 := Nat.mod_lt _ (by norm_num)
  simp [parseDigits, isDigit_digitChar, digitsValue, digitChar_toNat _ ha, digitChar_toNat _ hb]

theorem parseDigits_four (a b c d : Nat) :
    parseDigits [digitChar (a % 10), digitChar (b % 10), digitChar (c % 10), digitChar (d % 10)] =
      some (((a % 10 * 10 + b % 10) * 10 + c % 10) * 10 + d % 10) := by
  have ha : a % 10 < 10 := Nat.mod_lt _ (by norm_num)
  have hb : b % 10 < 10 := Nat.mod_lt _ (by norm_num)
  have hc : c % 10 < 10 := Nat.mod_lt _ (by norm_num)
  have hd : d % 10 < 10 := Nat.mod_lt _ (by norm_num)
  simp [parseDigits, isDigit_digitChar, digitsValue, digitChar_toNat _ ha, digitChar_toNat _ hb,
    digitChar_toNat _ hc, digitChar_toNat _ hd]
theorem parseDigits_two_lt (n : Nat) (h : n < 100) :
    parseDigits [digitChar (n / 10 % 10), digitChar (n % 10)] = some n := by
  rw [parseDigits_two]
  congr 1
  omega

theorem parseDigits_four_lt (n : Nat) (h : n < 10000) :
    parseDigits [digitChar (n / 10 / 10 / 10 % 10), digitChar (n / 10 / 10 % 10),
      digitChar (n / 10 % 10), digitChar (n % 10)] = some n := by
  rw [parseDigits_four]
  congr 1
  omega

/-- The zone designator that `zoneSuffix` prints for a whole number of minutes within a day
denotes that offset. -/
theorem zoneOffsetOf_zoneSuffix (off : Int) (h60 : off % 60 = 0) (hlo : -86400 < off)
    (hhi : off < 86400) : zoneOffsetOf (zoneSuffix off) = some off := by
  unfold zoneSuffix
  by_cases h0 : off = 0
  · simp [h0, zoneOffsetOf]
  · rw [if_neg h0]
    have hz : Int.tdiv off 60 = off / 60 :=
      Int.tdiv_eq_ediv_of_dvd (Int.dvd_of_emod_eq_zero h60)
    simp only [hz]
    obtain ⟨n, hn⟩ : ∃ n : Nat, n = (off / 60).natAbs := ⟨_, rfl⟩
    rw [← hn]
    have hn1 : n < 1440 := by omega
    have e1 := appendInt_two ((n / 60 : Nat) : Int) (by omega) (by omega)
    have e2 := appendInt_two ((n % 60 : Nat) : Int) (by omega) (by omega)
    simp only [Int.toNat_ofNat] at e1 e2
    rw [e1, e2]
    have p1 := parseDigits_two_lt (n / 60) (by omega)
    have p2 := parseDigits_two_lt (n % 60) (by omega)
    by_cases hneg : off / 60 < 0
    · simp only [hneg, if_true, List.cons_append, List.nil_append, List.singleton_append,
        zoneOffsetOf, p1, p2]
      simp only [or_true, and_self, if_true, Option.some.injEq]
      push_cast
      omega
    · simp only [hneg, if_false, List.cons_append, List.nil_append, List.singleton_append,
        zoneOffsetOf, p1, p2]
      have hc : ¬ ('+' = '-') := by decide
      simp only [true_or, and_self, if_true, hc, if_false, Option.some.injEq]
      push_cast
      omega

/-- The instant denoted by a timestamp that spells the given fields. -/
theorem rfc3339Instant_fields (Y Mo Dd H Mi S : Nat) (hY : Y < 10000) (hMo : Mo < 100)
    (hDd : Dd < 100) (hH : H < 100) (hMi : Mi < 100) (hS : S < 100) (zone : List Char)
    (off : Int) (hz : zoneOffsetOf zone = some off) :
    rfc3339Instant (String.mk
      ([digitChar (Y / 10 / 10 / 10 % 10), digitChar (Y / 10 / 10 % 10), digitChar (Y / 10 % 10),
          digitChar (Y % 10)] ++ ['-'] ++ [digitChar (Mo / 10 % 10), digitChar (Mo % 10)] ++ ['-']
        ++ [digitChar (Dd / 10 % 10), digitChar (Dd % 10)] ++ ['T']
        ++ [digitChar (H / 10 % 10), digitChar (H % 10)] ++ [':']
        ++ [digitChar (Mi / 10 % 10), digitChar (Mi % 10)] ++ [':']
        ++ [digitChar (S / 10 % 10), digitChar (S % 10)] ++ zone)) =
      some ((daysSinceYearOne Y Mo Dd - 719162) * 86400 + (H : Int) * 3600 + (Mi : Int) * 60
        + (S : Int) - off) := by
  simp only [rfc3339Instant, List.cons_append, List.nil_append, and_self, if_true,
    parseDigits_four_lt Y hY, parseDigits_two_lt Mo hMo, parseDigits_two_lt Dd hDd,
    parseDigits_two_lt H hH, parseDigits_two_lt Mi hMi, parseDigits_two_lt S hS, hz]
/-- Days from 1 January of year 0 up to 31 December of year 9999 have a four-digit year. -/
theorem absYear_range (D : Int) (hlo : -366 ≤ D) (hhi : D < 3652059) :
    0 ≤ (absYear D).1 ∧ (absYear D).1 < 10000 := by
  obtain ⟨y1, y2, y3⟩ := absYear_spec D
  constructor
  · by_cases hl : isLeap (absYear D).1 = true
    · rw [if_pos hl] at y3
      simp only [isLeap, decide_eq_true_eq] at hl
      omega
    · rw [if_neg hl] at y3
      by_contra hneg
      rcases (by omega : (absYear D).1 ≤ -2 ∨ (absYear D).1 = -1) with h | h
      · omega
      · omega
  · split_ifs at y3 <;> omega

/-- Reading back what `Format(time.RFC3339)` prints gives the whole second of the instant: for
an instant whose local year lies in 0 to 9999, shown in a zone whose offset is a
whole number of minutes within a day. -/
theorem rfc3339Instant_formatRFC3339 (t off : Int) (h60 : off % 60 = 0) (hlo : -86400 < off)
    (hhi : off < 86400) (hy0 : -62167219200 ≤ t / 1000000000 + off)
    (hy1 : t / 1000000000 + off < 253402300800) :
    rfc3339Instant (formatRFC3339 t off) = some (t / 1000000000) := by
  obtain ⟨sec, hsec⟩ : ∃ sec, sec = t / 1000000000 := ⟨_, rfl⟩
  obtain ⟨D, hD⟩ : ∃ D, D = (sec + off) / 86400 + 719162 := ⟨_, rfl⟩
  obtain ⟨r, hr⟩ : ∃ r, r = (sec + off) % 86400 := ⟨_, rfl⟩
  rw [← hsec] at hy0 hy1
  obtain ⟨hdays, m1, m2, d1, d2⟩ := daysSinceYearOne_absDate D
  have hDlo : -366 ≤ D := by omega
  have hDhi : D < 3652059 := by omega
  obtain ⟨hY0, hY1⟩ : 0 ≤ (absDate D).1 ∧ (absDate D).1 < 10000 := absYear_range D hDlo hDhi
  have hfmt : formatRFC3339 t off = String.mk
      (appendInt (absDate D).1 4 ++ ['-'] ++ appendInt (absDate D).2.1 2 ++ ['-']
        ++ appendInt (absDate D).2.2 2 ++ ['T'] ++ appendInt (r / 3600) 2 ++ [':']
        ++ appendInt (r % 3600 / 60) 2 ++ [':'] ++ appendInt (r % 60) 2 ++ zoneSuffix off) := by
    simp only [formatRFC3339, hsec, hD, hr]
  rw [hfmt, appendInt_four _ hY0 hY1, appendInt_two _ (by omega) (by omega),
    appendInt_two (absDate D).2.2 (by omega) (by omega),
    appendInt_two (r / 3600) (by omega) (by omega),
    appendInt_two (r % 3600 / 60) (by omega) (by omega),
    appendInt_two (r % 60) (by omega) (by omega),
    rfc3339Instant_fields _ _ _ _ _ _ (by omega) (by omega) (by omega) (by omega) (by omega)
      (by omega) _ off (zoneOffsetOf_zoneSuffix off h60 hlo hhi)]
  rw [Int.toNat_of_nonneg hY0, Int.toNat_of_nonneg (by omega : 0 ≤ (absDate D).2.1),
    Int.toNat_of_nonneg (by omega : 0 ≤ (absDate D).2.2),
    Int.toNat_of_nonneg (by omega : 0 ≤ r / 3600),
    Int.toNat_of_nonneg (by omega : 0 ≤ r % 3600 / 60),
    Int.toNat_of_nonneg (by omega : 0 ≤ r % 60), hdays]
  congr 1
  omega
/-- C8 as stated fails: a call made 1.5 s after the epoch succeeds and writes a `created` field
that denotes the instant 1 s after the epoch, which is earlier than both clock
readings of the call. -/
theorem created_earlier_than_call :
    storeUsernameHandler noFaults ⟨1500000000, 1500000200, 0⟩ []
        (RequestBody.value (Json.obj [("player", Json.str "bob")])) =
      (⟨StatusOK, Body.message "player stored successfully"⟩,
        [("player:1500000000", RedisValue.hash [("id", "1500000000"), ("player", "bob"),
          ("wins", "0"), ("losses", "0"), ("total", "0"), ("created", "1970-01-01T00:00:01Z")])]) ∧
    rfc3339Instant "1970-01-01T00:00:01Z" = some 1 ∧
    (1 : Int) * 1000000000 < 1500000000 := by
  decide

/-- C8, amended: a successful store-username call writes as `created` the RFC 3339 text of its
second clock reading, which has whole-second resolution.  For a reading whose
local year lies in 0 to 9999, in a zone whose offset is a whole number of
minutes within a day, the text denotes the reading rounded down to a whole
second: an instant not later than the reading and less than one second
earlier, hence less than one second earlier than the first reading of the call
when the clock does not run backwards. -/
theorem created_is_reading_cut_to_seconds (f : Faults) (clk : Clock) (σ : Store)
    (body : RequestBody)
    (hok : (storeUsernameHandler f clk σ body).1.status = StatusOK)
    (h60 : clk.zoneOffset % 60 = 0) (hlo : -86400 < clk.zoneOffset)
    (hhi : clk.zoneOffset < 86400)
    (hy0 : -62167219200 ≤ clk.createdNano / 1000000000 + clk.zoneOffset)
    (hy1 : clk.createdNano / 1000000000 + clk.zoneOffset < 253402300800) :
    ∃ fields instant,
      (storeUsernameHandler f clk σ body).2.find (playerKey (FormatInt clk.idNano)) =
        some (RedisValue.hash fields) ∧
      mapIndex fields "created" = formatRFC3339 clk.createdNano clk.zoneOffset ∧
      rfc3339Instant (mapIndex fields "created") = some instant ∧
      instant * 1000000000 ≤ clk.createdNano ∧
      clk.createdNano < instant * 1000000000 + 1000000000 ∧
      (clk.idNano ≤ clk.createdNano → clk.idNano - 1000000000 < instant * 1000000000) := by
  obtain ⟨player, -, hw⟩ := storeUsernameHandler_ok f clk σ body hok
  obtain ⟨⟨old, hfind⟩, -⟩ := clientHMSet_some _ _ _ _ _ hw
  obtain ⟨-, -, -, -, -, hcreated⟩ := mapIndex_newPlayerFields old (FormatInt clk.idNano) player
    (formatRFC3339 clk.createdNano clk.zoneOffset)
  refine ⟨_, clk.createdNano / 1000000000, hfind, hcreated, ?_, ?_, ?_, ?_⟩
  · rw [hcreated]
    exact rfc3339Instant_formatRFC3339 _ _ h60 hlo hhi hy0 hy1
  · omega
  · omega
  · intro h
    omega

/-- Witness for C8: a call on 1 November 2025 in a zone five and a half hours east of UTC. -/
theorem created_is_reading_cut_to_seconds_witness :
    (storeUsernameHandler noFaults ⟨1762038000123456789, 1762038000123999999, 19800⟩ []
      (RequestBody.value (Json.obj [("player", Json.str "bob")]))).1.status = StatusOK ∧
    ∃ fields instant,
      (storeUsernameHandler noFaults ⟨1762038000123456789, 1762038000123999999, 19800⟩ []
        (RequestBody.value (Json.obj [("player", Json.str "bob")]))).2.find
          (playerKey (FormatInt 1762038000123456789)) = some (RedisValue.hash fields) ∧
      mapIndex fields "created" = formatRFC3339 1762038000123999999 19800 ∧
      rfc3339Instant (mapIndex fields "created") = some instant ∧
      instant * 1000000000 ≤ 1762038000123999999 ∧
      1762038000123999999 < instant * 1000000000 + 1000000000 ∧
      ((1762038000123456789 : Int) ≤ 1762038000123999999 →
        (1762038000123456789 : Int) - 1000000000 < instant * 1000000000) :=
  ⟨by decide, created_is_reading_cut_to_seconds noFaults
    ⟨1762038000123456789, 1762038000123999999, 19800⟩ []
    (RequestBody.value (Json.obj [("player", Json.str "bob")])) (by decide) (by decide)
    (by decide) (by decide) (by decide) (by decide)⟩

end CardGame
